import Mathlib

/-!
Verification of the Detection, State & Identity-Resolution Engine of the
GUVI-Hackathon honeypot system: a shallow embedding in Lean 4 of

  * the conversation state machine (`app/agents/state_machine.py`),
  * the rule-based heuristic detector (`app/detectors/rule_based.py`),
  * the ensemble risk engine (`app/scoring/ensemble_engine.py`),
  * the output-safety guardrails (`app/safety/guardrails.py`),
  * the scam network analyzer (`app/scoring/network_analyzer.py`),

together with theorems settling the specification's claims about them.

Modelling conventions: Python floats are modelled as rationals (the constants
involved are decimal literals, so arithmetic is exact); Python dicts are
insertion-ordered association lists; Python sets are duplicate-free lists
(membership is what the code observes); datetime fields, which no claim
mentions, are omitted; functions that `raise` are modelled with `Except`;
`re` library calls are modelled by a small executable regex interpreter whose
pattern ASTs transcribe the source's regex literals.
-/

set_option maxHeartbeats 1000000

/-! ## Association-list helpers (Python `dict` with insertion order) -/

/-- Lookup in an insertion-ordered association list (Python `dict.get`). -/
def lookupA {α : Type} (l : List (String × α)) (k : String) : Option α :=
  match l with
  | [] => none
  | (k', v) :: t => if k' = k then some v else lookupA t k

/-- Update the binding of `k` in place, or append it (Python `d[k] = v`). -/
def upsertA {α : Type} (l : List (String × α)) (k : String) (v : α) :
    List (String × α) :=
  match l with
  | [] => [(k, v)]
  | (k', v') :: t => if k' = k then (k', v) :: t else (k', v') :: upsertA t k v

/-- Python `k in d`. -/
def hasKeyA {α : Type} (l : List (String × α)) (k : String) : Bool :=
  (lookupA l k).isSome

/-- Python `set.add` on a set represented as a duplicate-free list. -/
def insertNew (l : List String) (x : String) : List String :=
  if x ∈ l then l else l ++ [x]

/-! ## Conversation state machine (`app/agents/state_machine.py`) -/

/-- States in the honeypot conversation lifecycle (`ConversationState`). -/
inductive ConversationState where
  | INITIAL
  | NORMAL_CHAT
  | SCAM_SUSPECTED
  | HONEYPOT_ENGAGED
  | INTEL_EXTRACTION
  | SAFE_TERMINATION
  | TERMINATED
deriving DecidableEq, Repr

/-- Possible state transitions (`StateTransition`). -/
inductive StateTransition where
  | SCAM_DETECTED
  | SCAM_CONFIRMED
  | INTEL_RECEIVED
  | MAX_TURNS_REACHED
  | SAFETY_TRIGGERED
  | SCAMMER_DISENGAGED
  | USER_TERMINATED
  | SCAM_CLEARED
deriving DecidableEq, Repr

/-- The `.value` string of a `ConversationState` member. -/
def stateValue : ConversationState → String
  | .INITIAL => "initial"
  | .NORMAL_CHAT => "normal_chat"
  | .SCAM_SUSPECTED => "scam_suspected"
  | .HONEYPOT_ENGAGED => "honeypot_engaged"
  | .INTEL_EXTRACTION => "intel_extraction"
  | .SAFE_TERMINATION => "safe_termination"
  | .TERMINATED => "terminated"

/-- The `.value` string of a `StateTransition` member. -/
def transitionValue : StateTransition → String
  | .SCAM_DETECTED => "scam_detected"
  | .SCAM_CONFIRMED => "scam_confirmed"
  | .INTEL_RECEIVED => "intel_received"
  | .MAX_TURNS_REACHED => "max_turns_reached"
  | .SAFETY_TRIGGERED => "safety_triggered"
  | .SCAMMER_DISENGAGED => "scammer_disengaged"
  | .USER_TERMINATED => "user_terminated"
  | .SCAM_CLEARED => "scam_cleared"

/-- The state transition table `TRANSITION_RULES`, keyed by
`(current_state, trigger)`; `none` encodes absence from the nested dict. -/
def TRANSITION_RULES : ConversationState → StateTransition → Option ConversationState
  | .INITIAL, .SCAM_DETECTED => some .SCAM_SUSPECTED
  | .INITIAL, .SCAM_CLEARED => some .NORMAL_CHAT
  | .NORMAL_CHAT, .SCAM_DETECTED => some .SCAM_SUSPECTED
  | .NORMAL_CHAT, .USER_TERMINATED => some .TERMINATED
  | .SCAM_SUSPECTED, .SCAM_CONFIRMED => some .HONEYPOT_ENGAGED
  | .SCAM_SUSPECTED, .SCAM_CLEARED => some .NORMAL_CHAT
  | .SCAM_SUSPECTED, .SAFETY_TRIGGERED => some .SAFE_TERMINATION
  | .HONEYPOT_ENGAGED, .INTEL_RECEIVED => some .INTEL_EXTRACTION
  | .HONEYPOT_ENGAGED, .MAX_TURNS_REACHED => some .SAFE_TERMINATION
  | .HONEYPOT_ENGAGED, .SAFETY_TRIGGERED => some .SAFE_TERMINATION
  | .HONEYPOT_ENGAGED, .SCAMMER_DISENGAGED => some .SAFE_TERMINATION
  | .INTEL_EXTRACTION, .MAX_TURNS_REACHED => some .SAFE_TERMINATION
  | .INTEL_EXTRACTION, .SAFETY_TRIGGERED => some .SAFE_TERMINATION
  | .INTEL_EXTRACTION, .SCAMMER_DISENGAGED => some .SAFE_TERMINATION
  | .SAFE_TERMINATION, .USER_TERMINATED => some .TERMINATED
  | _, _ => none

/-- Transition metadata (Python passes small string-keyed dicts). -/
abbrev MetaD : Type := List (String × String)

/-- One conversation message (datetime timestamp omitted). -/
structure SMMessage where
  role : String
  content : String
  turn : Nat
  metadata : MetaD
deriving Repr

/-- One record of `state_history` (the source stores the `.value` strings). -/
structure HistoryEntry where
  from_state : String
  to_state : String
  trigger : String
  metadata : Option MetaD
deriving Repr

/-- `ConversationContext` (datetime fields omitted; no claim mentions them). -/
structure ConversationContext where
  conversation_id : String
  state : ConversationState := .INITIAL
  turn_count : Nat := 0
  scam_score : ℚ := 0
  persona_type : Option String := none
  scammer_identifier : Option String := none
  extracted_entities : List (String × List String) := []
  intel_count : Nat := 0
  messages : List SMMessage := []
  state_history : List HistoryEntry := []
  safety_violations : List String := []
  is_terminated : Bool := false
  termination_reason : Option String := none

/-- `StateMachine`: max turns plus the per-conversation context dict. -/
structure StateMachine where
  max_turns : Nat := 50
  contexts : List (String × ConversationContext) := []

/-- Store a context under its conversation id. -/
def setCtx (sm : StateMachine) (cid : String) (ctx : ConversationContext) :
    StateMachine :=
  { sm with contexts := upsertA sm.contexts cid ctx }

/-- `StateMachine.create_context`. -/
def create_context (sm : StateMachine) (cid : String)
    (scammer_identifier : Option String := none) :
    StateMachine × ConversationContext :=
  let context : ConversationContext :=
    { conversation_id := cid, scammer_identifier := scammer_identifier }
  (setCtx sm cid context, context)

/-- `StateMachine.get_context`. -/
def get_context (sm : StateMachine) (cid : String) : Option ConversationContext :=
  lookupA sm.contexts cid

/-- `StateMachine.transition`: unknown conversation raises (`Except.error`);
a trigger absent from the table for the current state is a logged no-op;
reaching `TERMINATED` records `is_terminated` and the `termination_reason`. -/
def transition (sm : StateMachine) (cid : String) (trigger : StateTransition)
    (metadata : Option MetaD := none) : Except String StateMachine :=
  match lookupA sm.contexts cid with
  | none => .error ("Conversation not found: " ++ cid)
  | some context =>
    match TRANSITION_RULES context.state trigger with
    | none => .ok sm
    | some new_state =>
      let context :=
        { context with
          state_history := context.state_history ++
            [{ from_state := stateValue context.state,
               to_state := stateValue new_state,
               trigger := transitionValue trigger,
               metadata := metadata }],
          state := new_state }
      let context :=
        if new_state = .TERMINATED then
          { context with is_terminated := true,
                         termination_reason := some (transitionValue trigger) }
        else context
      .ok (setCtx sm cid context)

/-- `StateMachine.add_message`: appends the message, increments `turn_count`
and auto-fires `max_turns_reached` at the ceiling. -/
def add_message (sm : StateMachine) (cid role content : String)
    (metadata : Option MetaD := none) : Except String StateMachine :=
  match lookupA sm.contexts cid with
  | none => .error ("Conversation not found: " ++ cid)
  | some context =>
    let message : SMMessage :=
      { role := role, content := content, turn := context.turn_count,
        metadata := metadata.getD [] }
    let context :=
      { context with messages := context.messages ++ [message],
                     turn_count := context.turn_count + 1 }
    let sm := setCtx sm cid context
    if context.turn_count ≥ sm.max_turns then
      transition sm cid .MAX_TURNS_REACHED
    else .ok sm

/-- `StateMachine.add_intel`: dedups by value within the entity type and only
fires `intel_received` while in `HONEYPOT_ENGAGED`. -/
def add_intel (sm : StateMachine) (cid entity_type value : String) :
    Except String StateMachine :=
  match lookupA sm.contexts cid with
  | none => .error ("Conversation not found: " ++ cid)
  | some context =>
    let entities :=
      if hasKeyA context.extracted_entities entity_type then
        context.extracted_entities
      else context.extracted_entities ++ [(entity_type, [])]
    let current := (lookupA entities entity_type).getD []
    if value ∈ current then
      .ok (setCtx sm cid { context with extracted_entities := entities })
    else
      let context :=
        { context with
          extracted_entities := upsertA entities entity_type (current ++ [value]),
          intel_count := context.intel_count + 1 }
      let sm := setCtx sm cid context
      if context.state = .HONEYPOT_ENGAGED then
        transition sm cid .INTEL_RECEIVED
      else .ok sm

/-- `StateMachine.update_scam_score`: stores the score and applies the
score-driven auto-transition policy. -/
def update_scam_score (sm : StateMachine) (cid : String) (score : ℚ) :
    Except String StateMachine :=
  match lookupA sm.contexts cid with
  | none => .error ("Conversation not found: " ++ cid)
  | some context =>
    let context := { context with scam_score := score }
    let sm := setCtx sm cid context
    if context.state = .INITIAL then
      if score > 7/10 then transition sm cid .SCAM_DETECTED
      else transition sm cid .SCAM_CLEARED
    else if context.state = .SCAM_SUSPECTED then
      if score > 8/10 then transition sm cid .SCAM_CONFIRMED
      else if score < 4/10 then transition sm cid .SCAM_CLEARED
      else .ok sm
    else .ok sm

/-- The critical violation tags of `record_safety_violation`. -/
def critical_violations : List String :=
  ["payment_attempted", "pii_leaked", "prompt_injection_detected"]

/-- `StateMachine.record_safety_violation`: appends the violation and
auto-fires `safety_triggered` on the critical tags. -/
def record_safety_violation (sm : StateMachine) (cid violation : String) :
    Except String StateMachine :=
  match lookupA sm.contexts cid with
  | none => .error ("Conversation not found: " ++ cid)
  | some context =>
    let context :=
      { context with safety_violations := context.safety_violations ++ [violation] }
    let sm := setCtx sm cid context
    if violation ∈ critical_violations then
      transition sm cid .SAFETY_TRIGGERED (some [("violation", violation)])
    else .ok sm

/-- The state currently recorded for a conversation. -/
def stateOf (sm : StateMachine) (cid : String) : Option ConversationState :=
  (lookupA sm.contexts cid).map (·.state)

/-- One public mutating operation of the state machine, for reachability. -/
inductive MachineOp where
  | createOp (cid : String) (scammer : Option String)
  | transitionOp (cid : String) (t : StateTransition) (m : Option MetaD)
  | addMessageOp (cid role content : String) (m : Option MetaD)
  | addIntelOp (cid ty v : String)
  | updateScoreOp (cid : String) (s : ℚ)
  | recordViolationOp (cid v : String)

/-- Apply one operation; a raised `NotFound` leaves the machine unchanged
(the source raises before any mutation). -/
def applyOp (sm : StateMachine) : MachineOp → StateMachine
  | .createOp cid scammer => (create_context sm cid scammer).1
  | .transitionOp cid t m => ((transition sm cid t m).toOption).getD sm
  | .addMessageOp cid role content m =>
      ((add_message sm cid role content m).toOption).getD sm
  | .addIntelOp cid ty v => ((add_intel sm cid ty v).toOption).getD sm
  | .updateScoreOp cid s => ((update_scam_score sm cid s).toOption).getD sm
  | .recordViolationOp cid v =>
      ((record_safety_violation sm cid v).toOption).getD sm

/-- Run a list of operations from a fresh machine. -/
def runOps (maxTurns : Nat) (ops : List MachineOp) : StateMachine :=
  ops.foldl applyOp { max_turns := maxTurns, contexts := [] }

/-- The termination bookkeeping invariant of every reachable context:
`is_terminated` tracks the `TERMINATED` state exactly, and a termination
reason is recorded exactly for user-terminated conversations. -/
def SMInv (ctx : ConversationContext) : Prop :=
  (ctx.is_terminated = true ↔ ctx.state = .TERMINATED) ∧
  (ctx.is_terminated = true → ctx.termination_reason = some "user_terminated") ∧
  (ctx.is_terminated = false → ctx.termination_reason = none)

/-! ## Theorems: association lists -/

theorem lookupA_upsertA_self {α : Type} (l : List (String × α)) (k : String) (v : α) :
    lookupA (upsertA l k v) k = some v := by
  induction l with
  | nil => simp [lookupA, upsertA]
  | cons h t ih =>
    obtain ⟨k', v'⟩ := h
    by_cases hk : k' = k <;> simp [lookupA, upsertA, hk, ih]

theorem lookupA_upsertA_ne {α : Type} (l : List (String × α)) (k k' : String)
    (v : α) (h : k ≠ k') : lookupA (upsertA l k v) k' = lookupA l k' := by
  induction l with
  | nil => simp [lookupA, upsertA, h]
  | cons hd t ih =>
    obtain ⟨k₀, v₀⟩ := hd
    by_cases hk : k₀ = k
    · subst hk
      simp [lookupA, upsertA, h]
    · simp [lookupA, upsertA, hk, ih]

theorem lookupA_setCtx (sm : StateMachine) (cid cid' : String)
    (ctx : ConversationContext) :
    lookupA (setCtx sm cid ctx).contexts cid' =
      if cid = cid' then some ctx else lookupA sm.contexts cid' := by
  by_cases h : cid = cid'
  · subst h; simp [setCtx, lookupA_upsertA_self]
  · simp [setCtx, h, lookupA_upsertA_ne sm.contexts cid cid' ctx h]

/-! ## Theorems: state machine invariants -/

theorem TRANSITION_RULES_terminated_only_user (s : ConversationState)
    (t : StateTransition) (h : TRANSITION_RULES s t = some .TERMINATED) :
    t = .USER_TERMINATED := by
  cases s <;> cases t <;> simp_all [TRANSITION_RULES]

theorem TRANSITION_RULES_from_terminated (t : StateTransition) :
    TRANSITION_RULES .TERMINATED t = none := by
  cases t <;> rfl

/-- `transition` preserves the per-context termination invariant. -/
theorem transition_preserves_SMInv (sm : StateMachine) (cid : String)
    (t : StateTransition) (m : Option MetaD) (sm' : StateMachine)
    (hinv : ∀ c ctx, lookupA sm.contexts c = some ctx → SMInv ctx)
    (h : transition sm cid t m = .ok sm') :
    ∀ c ctx, lookupA sm'.contexts c = some ctx → SMInv ctx := by
  cases hl : lookupA sm.contexts cid with
  | none => simp only [transition, hl] at h; exact absurd h (by simp)
  | some context =>
    simp only [transition, hl] at h
    cases hr : TRANSITION_RULES context.state t with
    | none =>
      rw [hr] at h
      simp only [Except.ok.injEq] at h
      subst h; exact hinv
    | some new_state =>
      rw [hr] at h
      simp only at h
      by_cases hterm : new_state = .TERMINATED
      · subst hterm
        have ht : t = .USER_TERMINATED := TRANSITION_RULES_terminated_only_user _ _ hr
        simp only [if_pos rfl, Except.ok.injEq] at h
        subst h
        intro c ctx hc
        rw [lookupA_setCtx] at hc
        by_cases hcid : cid = c
        · rw [if_pos hcid] at hc
          cases hc
          subst ht
          refine ⟨by simp, by simp [transitionValue], by simp⟩
        · rw [if_neg hcid] at hc
          exact hinv c ctx hc
      · rw [if_neg hterm] at h
        simp only [Except.ok.injEq] at h
        subst h
        intro c ctx hc
        rw [lookupA_setCtx] at hc
        by_cases hcid : cid = c
        · rw [if_pos hcid] at hc
          cases hc
          have hctx := hinv cid context hl
          obtain ⟨h1, h2, h3⟩ := hctx
          have hnt : context.state ≠ .TERMINATED := by
            intro hst
            rw [hst, TRANSITION_RULES_from_terminated] at hr
            exact absurd hr (by simp)
          have hterm0 : context.is_terminated = false := by
            cases hb : context.is_terminated
            · rfl
            · exact absurd (h1.mp hb) hnt
          refine ⟨?_, ?_, ?_⟩
          · simp [hterm0, hterm]
          · simp [hterm0]
          · intro _; exact h3 hterm0
        · rw [if_neg hcid] at hc
          exact hinv c ctx hc

/-- The machine-wide invariant: every stored context satisfies `SMInv`. -/
def MachineInv (sm : StateMachine) : Prop :=
  ∀ c ctx, lookupA sm.contexts c = some ctx → SMInv ctx

theorem setCtx_preserves_MachineInv {sm : StateMachine} {cid : String}
    {ctx : ConversationContext} (hinv : MachineInv sm) (hctx : SMInv ctx) :
    MachineInv (setCtx sm cid ctx) := by
  intro c ctx' hc
  rw [lookupA_setCtx] at hc
  by_cases hcid : cid = c
  · rw [if_pos hcid] at hc; cases hc; exact hctx
  · rw [if_neg hcid] at hc; exact hinv c ctx' hc

theorem transition_preserves_MachineInv {sm sm' : StateMachine} {cid : String}
    {t : StateTransition} {m : Option MetaD} (hinv : MachineInv sm)
    (h : transition sm cid t m = .ok sm') : MachineInv sm' :=
  transition_preserves_SMInv sm cid t m sm' hinv h

theorem create_context_preserves_MachineInv {sm : StateMachine} {cid : String}
    {scammer : Option String} (hinv : MachineInv sm) :
    MachineInv (create_context sm cid scammer).1 := by
  refine setCtx_preserves_MachineInv hinv ?_
  exact ⟨by simp, by simp, by simp⟩

theorem transition_setCtx_preserves {sm sm' : StateMachine} {cid : String}
    {ctx2 : ConversationContext} {t : StateTransition} {m : Option MetaD}
    (hinv : MachineInv sm) (hc : SMInv ctx2)
    (h : transition (setCtx sm cid ctx2) cid t m = .ok sm') : MachineInv sm' :=
  transition_preserves_MachineInv (setCtx_preserves_MachineInv hinv hc) h

theorem ok_setCtx_preserves {sm sm' : StateMachine} {cid : String}
    {ctx2 : ConversationContext} (hinv : MachineInv sm) (hc : SMInv ctx2)
    (h : (Except.ok (setCtx sm cid ctx2) : Except String StateMachine) = .ok sm') :
    MachineInv sm' := by
  cases h; exact setCtx_preserves_MachineInv hinv hc

theorem add_message_preserves_MachineInv {sm sm' : StateMachine}
    {cid role content : String} {m : Option MetaD} (hinv : MachineInv sm)
    (h : add_message sm cid role content m = .ok sm') : MachineInv sm' := by
  cases hl : lookupA sm.contexts cid with
  | none => simp only [add_message, hl] at h; exact absurd h (by simp)
  | some context =>
    have hSM : SMInv context := hinv cid context hl
    simp only [add_message, hl] at h
    split at h
    · refine transition_setCtx_preserves hinv ?_ h
      simpa [SMInv] using hSM
    · refine ok_setCtx_preserves hinv ?_ h
      simpa [SMInv] using hSM

theorem add_intel_preserves_MachineInv {sm sm' : StateMachine}
    {cid ty v : String} (hinv : MachineInv sm)
    (h : add_intel sm cid ty v = .ok sm') : MachineInv sm' := by
  cases hl : lookupA sm.contexts cid with
  | none => simp only [add_intel, hl] at h; exact absurd h (by simp)
  | some context =>
    have hSM : SMInv context := hinv cid context hl
    simp only [add_intel, hl] at h
    split at h <;>
      [skip; skip] <;>
    · split at h
      · refine ok_setCtx_preserves hinv ?_ h
        simpa [SMInv] using hSM
      · split at h
        · refine transition_setCtx_preserves hinv ?_ h
          simpa [SMInv] using hSM
        · refine ok_setCtx_preserves hinv ?_ h
          simpa [SMInv] using hSM

theorem update_scam_score_preserves_MachineInv {sm sm' : StateMachine}
    {cid : String} {score : ℚ} (hinv : MachineInv sm)
    (h : update_scam_score sm cid score = .ok sm') : MachineInv sm' := by
  cases hl : lookupA sm.contexts cid with
  | none => simp only [update_scam_score, hl] at h; exact absurd h (by simp)
  | some context =>
    have hSM : SMInv context := hinv cid context hl
    have hc2 : SMInv { context with scam_score := score } := by
      simpa [SMInv] using hSM
    simp only [update_scam_score, hl] at h
    split at h
    · split at h
      · exact transition_setCtx_preserves hinv hc2 h
      · exact transition_setCtx_preserves hinv hc2 h
    · split at h
      · split at h
        · exact transition_setCtx_preserves hinv hc2 h
        · split at h
          · exact transition_setCtx_preserves hinv hc2 h
          · exact ok_setCtx_preserves hinv hc2 h
      · exact ok_setCtx_preserves hinv hc2 h

theorem record_safety_violation_preserves_MachineInv {sm sm' : StateMachine}
    {cid v : String} (hinv : MachineInv sm)
    (h : record_safety_violation sm cid v = .ok sm') : MachineInv sm' := by
  cases hl : lookupA sm.contexts cid with
  | none => simp only [record_safety_violation, hl] at h; exact absurd h (by simp)
  | some context =>
    have hSM : SMInv context := hinv cid context hl
    have hc2 : SMInv
        { context with safety_violations := context.safety_violations ++ [v] } := by
      simpa [SMInv] using hSM
    simp only [record_safety_violation, hl] at h
    split at h
    · exact transition_setCtx_preserves hinv hc2 h
    · exact ok_setCtx_preserves hinv hc2 h

theorem applyOp_preserves_MachineInv {sm : StateMachine} (op : MachineOp)
    (hinv : MachineInv sm) : MachineInv (applyOp sm op) := by
  cases op with
  | createOp cid scammer => exact create_context_preserves_MachineInv hinv
  | transitionOp cid t m =>
    cases h : transition sm cid t m with
    | error e => simp [applyOp, h, Except.toOption]; exact hinv
    | ok sm' =>
      simpa [applyOp, h, Except.toOption] using
        transition_preserves_MachineInv hinv h
  | addMessageOp cid role content m =>
    cases h : add_message sm cid role content m with
    | error e => simp [applyOp, h, Except.toOption]; exact hinv
    | ok sm' =>
      simpa [applyOp, h, Except.toOption] using
        add_message_preserves_MachineInv hinv h
  | addIntelOp cid ty v =>
    cases h : add_intel sm cid ty v with
    | error e => simp [applyOp, h, Except.toOption]; exact hinv
    | ok sm' =>
      simpa [applyOp, h, Except.toOption] using
        add_intel_preserves_MachineInv hinv h
  | updateScoreOp cid s =>
    cases h : update_scam_score sm cid s with
    | error e => simp [applyOp, h, Except.toOption]; exact hinv
    | ok sm' =>
      simpa [applyOp, h, Except.toOption] using
        update_scam_score_preserves_MachineInv hinv h
  | recordViolationOp cid v =>
    cases h : record_safety_violation sm cid v with
    | error e => simp [applyOp, h, Except.toOption]; exact hinv
    | ok sm' =>
      simpa [applyOp, h, Except.toOption] using
        record_safety_violation_preserves_MachineInv hinv h

theorem foldl_applyOp_MachineInv (ops : List MachineOp) :
    ∀ sm : StateMachine, MachineInv sm → MachineInv (ops.foldl applyOp sm) := by
  induction ops with
  | nil => intro sm h; exact h
  | cons op t ih =>
    intro sm h
    rw [List.foldl_cons]
    exact ih (applyOp sm op) (applyOp_preserves_MachineInv op h)

theorem runOps_MachineInv (maxTurns : Nat) (ops : List MachineOp) :
    MachineInv (runOps maxTurns ops) := by
  refine foldl_applyOp_MachineInv ops _ ?_
  intro c ctx hc
  simp [lookupA] at hc

/-! ## Claim theorems: state machine -/

/-- C1: for every stored conversation context and every (state, trigger) pair
absent from `TRANSITION_RULES`, `transition` is a no-op: the machine (hence
the conversation's state) is returned unchanged and no error is raised. -/
theorem transition_invalid_is_noop (sm : StateMachine) (cid : String)
    {ctx : ConversationContext} (t : StateTransition) (m : Option MetaD)
    (hctx : lookupA sm.contexts cid = some ctx)
    (hrule : TRANSITION_RULES ctx.state t = none) :
    transition sm cid t m = .ok sm := by
  simp only [transition, hctx, hrule]

/-- Concrete machine for the C1 witness: one fresh conversation `"c"`. -/
def c1machine : StateMachine := (create_context {} "c" none).1

/-- C1 witness: `intel_received` is not in the table for `INITIAL`, and firing
it on a fresh conversation returns the machine unchanged. -/
theorem transition_invalid_is_noop_witness :
    transition c1machine "c" .INTEL_RECEIVED none = .ok c1machine :=
  transition_invalid_is_noop c1machine "c" .INTEL_RECEIVED none rfl rfl

/-- C2: `update_scam_score` implements the score-driven auto-transition
policy: from `INITIAL`, score > 0.7 moves to `SCAM_SUSPECTED` and any other
score to `NORMAL_CHAT`; from `SCAM_SUSPECTED`, score > 0.8 moves to
`HONEYPOT_ENGAGED`, score < 0.4 to `NORMAL_CHAT`, and scores in between
leave the state unchanged; in particular from `INITIAL`,
`update_scam_score 0.85` yields `SCAM_SUSPECTED` and a further
`update_scam_score 0.9` yields `HONEYPOT_ENGAGED`. -/
theorem update_scam_score_policy (sm : StateMachine) (cid : String)
    {ctx : ConversationContext} (s : ℚ)
    (hctx : lookupA sm.contexts cid = some ctx) :
    (ctx.state = .INITIAL →
      ∃ sm', update_scam_score sm cid s = .ok sm' ∧
        stateOf sm' cid =
          some (if s > 7/10 then .SCAM_SUSPECTED else .NORMAL_CHAT)) ∧
    (ctx.state = .SCAM_SUSPECTED →
      ∃ sm', update_scam_score sm cid s = .ok sm' ∧
        stateOf sm' cid = some (if s > 8/10 then .HONEYPOT_ENGAGED
          else if s < 4/10 then .NORMAL_CHAT else .SCAM_SUSPECTED)) ∧
    (ctx.state = .INITIAL →
      ∃ sm' sm'', update_scam_score sm cid (85/100) = .ok sm' ∧
        stateOf sm' cid = some .SCAM_SUSPECTED ∧
        update_scam_score sm' cid (9/10) = .ok sm'' ∧
        stateOf sm'' cid = some .HONEYPOT_ENGAGED) := by
  refine ⟨?_, ?_, ?_⟩
  · intro h1
    by_cases hs : s > 7/10 <;>
      simp [update_scam_score, transition, stateOf, lookupA_setCtx, hctx, h1,
        hs, TRANSITION_RULES]
  · intro h1
    by_cases hs : s > 8/10
    · simp [update_scam_score, transition, stateOf, lookupA_setCtx, hctx, h1,
        hs, TRANSITION_RULES]
    · by_cases hs' : s < 4/10 <;>
        simp [update_scam_score, transition, stateOf, lookupA_setCtx, hctx, h1,
          hs, hs', TRANSITION_RULES]
  · intro h1
    have h85 : (85/100 : ℚ) > 7/10 := by norm_num
    have h90 : (9/10 : ℚ) > 8/10 := by norm_num
    simp [update_scam_score, transition, stateOf, lookupA_setCtx, hctx, h1,
      h85, h90, TRANSITION_RULES]

/-- Concrete machine for the C2 witness: one conversation `"c"` in INITIAL. -/
def c2machine : StateMachine :=
  { contexts := [("c", { conversation_id := "c" })] }

/-- C2 witness: the INITIAL --0.85--> SCAM_SUSPECTED --0.9--> HONEYPOT_ENGAGED
scenario on a concrete machine. -/
theorem update_scam_score_policy_witness :
    ∃ sm' sm'', update_scam_score c2machine "c" (85/100) = .ok sm' ∧
      stateOf sm' "c" = some .SCAM_SUSPECTED ∧
      update_scam_score sm' "c" (9/10) = .ok sm'' ∧
      stateOf sm'' "c" = some .HONEYPOT_ENGAGED :=
  (update_scam_score_policy c2machine "c" (85/100) rfl).2.2 rfl

/-- C5 (amended): `record_safety_violation` with `"payment_attempted"` always
appends the violation; it moves the conversation to `SAFE_TERMINATION` exactly
when the current state is one of `SCAM_SUSPECTED`, `HONEYPOT_ENGAGED` or
`INTEL_EXTRACTION` (the states from which `safety_triggered` is in the
transition table); from any other state the state is left unchanged. -/
theorem record_safety_violation_payment (sm : StateMachine) (cid : String)
    {ctx : ConversationContext}
    (hctx : lookupA sm.contexts cid = some ctx) :
    ∃ sm', record_safety_violation sm cid "payment_attempted" = .ok sm' ∧
      (lookupA sm'.contexts cid).map (·.safety_violations) =
        some (ctx.safety_violations ++ ["payment_attempted"]) ∧
      stateOf sm' cid = some
        (if ctx.state = .SCAM_SUSPECTED ∨ ctx.state = .HONEYPOT_ENGAGED ∨
            ctx.state = .INTEL_EXTRACTION
         then .SAFE_TERMINATION else ctx.state) := by
  cases h1 : ctx.state <;>
    simp [record_safety_violation, transition, stateOf, lookupA_setCtx, hctx,
      h1, TRANSITION_RULES, critical_violations]

/-- Concrete machine for the C5 witness: conversation in `SCAM_SUSPECTED`. -/
def c5machine : StateMachine :=
  { contexts := [("c", { conversation_id := "c", state := .SCAM_SUSPECTED })] }

/-- C5 witness: from `SCAM_SUSPECTED` the payment violation is appended and
the conversation moves to `SAFE_TERMINATION`. -/
theorem record_safety_violation_payment_witness :
    ∃ sm', record_safety_violation c5machine "c" "payment_attempted" = .ok sm' ∧
      (lookupA sm'.contexts "c").map (·.safety_violations) =
        some ["payment_attempted"] ∧
      stateOf sm' "c" = some .SAFE_TERMINATION :=
  record_safety_violation_payment c5machine "c" rfl

/-- Concrete machine refuting C5 as stated: conversation in `NORMAL_CHAT`. -/
def c5cexMachine : StateMachine :=
  { contexts := [("c", { conversation_id := "c", state := .NORMAL_CHAT })] }

/-- The machine after recording the violation on the C5 counterexample. -/
def c5cexAfter : StateMachine :=
  ((record_safety_violation c5cexMachine "c" "payment_attempted").toOption).getD
    c5cexMachine

/-- C5 counterexample: a conversation in `NORMAL_CHAT` (not `TERMINATED`)
stays in `NORMAL_CHAT` after `record_safety_violation "payment_attempted"`;
it does not move to `SAFE_TERMINATION`. -/
theorem record_safety_violation_payment_cex :
    stateOf c5cexMachine "c" = some .NORMAL_CHAT ∧
    (record_safety_violation c5cexMachine "c" "payment_attempted").isOk = true ∧
    stateOf c5cexAfter "c" = some .NORMAL_CHAT ∧
    stateOf c5cexAfter "c" ≠ some .SAFE_TERMINATION := by
  refine ⟨rfl, rfl, rfl, by decide⟩

/-- C10: in every conversation reachable by any sequence of state-machine
operations, `is_terminated` implies the state is `TERMINATED` with
`termination_reason = "user_terminated"` (the only trigger reaching
`TERMINATED`), and a conversation sitting in `SAFE_TERMINATION` has
`is_terminated` still false and no termination reason recorded. -/
theorem runOps_termination_discipline (maxTurns : Nat) (ops : List MachineOp)
    (cid : String) {ctx : ConversationContext}
    (hctx : lookupA (runOps maxTurns ops).contexts cid = some ctx) :
    (ctx.is_terminated = true →
      ctx.state = .TERMINATED ∧ ctx.termination_reason = some "user_terminated") ∧
    (ctx.state = .SAFE_TERMINATION →
      ctx.is_terminated = false ∧ ctx.termination_reason = none) := by
  obtain ⟨h1, h2, h3⟩ := runOps_MachineInv maxTurns ops cid ctx hctx
  constructor
  · intro ht; exact ⟨h1.mp ht, h2 ht⟩
  · intro hs
    have hterm : ctx.is_terminated = false := by
      cases hb : ctx.is_terminated
      · rfl
      · have hTT := h1.mp hb
        rw [hs] at hTT
        exact absurd hTT (by simp)
    exact ⟨hterm, h3 hterm⟩

/-- Operation sequence for the C10 witness: create, clear to NORMAL_CHAT,
then user termination. -/
def c10ops : List MachineOp :=
  [.createOp "c" none, .transitionOp "c" .SCAM_CLEARED none,
   .transitionOp "c" .USER_TERMINATED none]

/-- The context reached by the C10 witness operations. -/
def c10ctx : ConversationContext :=
  (lookupA (runOps 50 c10ops).contexts "c").getD { conversation_id := "" }

/-- C10 witness: the reachable terminated conversation indeed carries
`termination_reason = "user_terminated"`. -/
theorem runOps_termination_discipline_witness :
    lookupA (runOps 50 c10ops).contexts "c" = some c10ctx ∧
    c10ctx.state = .TERMINATED ∧
    c10ctx.termination_reason = some "user_terminated" := by
  have h := (runOps_termination_discipline 50 c10ops "c"
    (show lookupA (runOps 50 c10ops).contexts "c" = some c10ctx from rfl)).1 rfl
  exact ⟨rfl, h.1, h.2⟩

/-! ## A small executable regex interpreter

The source uses Python's `re` library. The pattern ASTs below transcribe the
source's regex literals construct by construct; the interpreter implements
Python's leftmost, ordered-alternation, greedy matching on the simple pattern
language the source uses (literals, classes, alternation, option, plus, star,
counted repetition, word boundaries). A fuel argument totalises the
backtracking search; the fuel passed by `scanAll` covers the recursion depth
these patterns reach on the scanned texts. -/

/-- Regex AST: literal classes, sequencing, prioritized alternation, greedy
star and word boundary. -/
inductive Rx where
  | eps
  | cls (p : Char → Bool)
  | seq (a b : Rx)
  | alt (a b : Rx)
  | star (a : Rx)
  | bnd

/-- Python's `\w` (ASCII view). -/
def isWordChar (c : Char) : Bool := c.isAlphanum || c = '_'

/-- Word-boundary test between the previously consumed char and the rest. -/
def boundaryOk (prev : Option Char) (s : List Char) : Bool :=
  let pw := match prev with | none => false | some c => isWordChar c
  let nw := match s with | [] => false | c :: _ => isWordChar c
  pw != nw

/-- Backtracking matcher: all continuations `(last consumed char, rest)` in
Python's priority order (first alternative first, greedy repetition). -/
def matchRx : Nat → Rx → Option Char → List Char → List (Option Char × List Char)
  | 0, _, _, _ => []
  | _ + 1, .eps, prev, s => [(prev, s)]
  | _ + 1, .bnd, prev, s => if boundaryOk prev s then [(prev, s)] else []
  | _ + 1, .cls p, _, s =>
    match s with
    | [] => []
    | c :: t => if p c then [(some c, t)] else []
  | fuel + 1, .alt a b, prev, s => matchRx fuel a prev s ++ matchRx fuel b prev s
  | fuel + 1, .seq a b, prev, s =>
    (matchRx fuel a prev s).flatMap fun st => matchRx fuel b st.1 st.2
  | fuel + 1, .star a, prev, s =>
    ((matchRx fuel a prev s).filter fun st => st.2.length < s.length).flatMap
      (fun st => matchRx fuel (.star a) st.1 st.2) ++ [(prev, s)]

/-- Structural size of a pattern, used to size the fuel. -/
def sizeRx : Rx → Nat
  | .eps => 1
  | .cls _ => 1
  | .bnd => 1
  | .seq a b => sizeRx a + sizeRx b + 1
  | .alt a b => sizeRx a + sizeRx b + 1
  | .star a => sizeRx a + 2

/-- Fuel covering the matcher's recursion depth on text `s`. -/
def fuelFor (r : Rx) (s : List Char) : Nat :=
  (s.length + 2) * (sizeRx r + 2)

/-- Fueled scan loop: each step either records a match and continues after it
or advances one character, so `s.length + 1` fuel always suffices. -/
def scanAllF (r : Rx) : Nat → Option Char → List Char → List (List Char)
  | 0, _, _ => []
  | _ + 1, _, [] => []
  | fuel + 1, prev, c :: t =>
    match (matchRx (fuelFor r (c :: t)) r prev (c :: t)).head? with
    | none => scanAllF r fuel (some c) t
    | some st =>
      -- a match that consumes at least one character is recorded and the scan
      -- continues after it (none of the transcribed patterns matches empty)
      if st.2.length < (c :: t).length then
        ((c :: t).take ((c :: t).length - st.2.length)) ::
          scanAllF r fuel
            ((((c :: t).take ((c :: t).length - st.2.length)).getLast?).orElse
              (fun _ => prev)) st.2
      else scanAllF r fuel (some c) t

/-- Python `re.findall` driver: scan left to right, take the first (highest
priority) match at the leftmost matching position, continue after it. -/
def scanAll (r : Rx) (prev : Option Char) (s : List Char) : List (List Char) :=
  scanAllF r (s.length + 1) prev s

/-- Python `re.search` as a Boolean. -/
def searchRx (r : Rx) (s : List Char) : Bool :=
  !(scanAll r none s).isEmpty

/-- Case-insensitive literal character (the source compiles its detector and
guardrail patterns with `re.IGNORECASE`; the pattern letters are lower case). -/
def rxCharCI (c : Char) : Rx := .cls (fun x => x.toLower = c)

/-- Case-sensitive literal character. -/
def rxCharCS (c : Char) : Rx := .cls (fun x => x = c)

/-- Sequence a list of patterns. -/
def rxSeq (l : List Rx) : Rx := l.foldr .seq .eps

/-- Case-insensitive literal string. -/
def rxStr (s : String) : Rx := rxSeq (s.data.map rxCharCI)

/-- Case-sensitive literal string. -/
def rxStrCS (s : String) : Rx := rxSeq (s.data.map rxCharCS)

/-- Ordered alternation over a list (first alternative preferred). -/
def rxAlt : List Rx → Rx
  | [] => .cls (fun _ => false)
  | [r] => r
  | r :: t => .alt r (rxAlt t)

/-- Greedy `r?`. -/
def rxOpt (r : Rx) : Rx := .alt r .eps

/-- Greedy `r+`. -/
def rxPlus (r : Rx) : Rx := .seq r (.star r)

/-- Exactly `n` copies of `r`. -/
def rxRep (r : Rx) : Nat → Rx
  | 0 => .eps
  | n + 1 => .seq r (rxRep r n)

/-- Greedily up to `n` copies of `r`. -/
def rxUpTo (r : Rx) : Nat → Rx
  | 0 => .eps
  | n + 1 => rxOpt (.seq r (rxUpTo r n))

/-- `r{n,m}`. -/
def rxRepRange (r : Rx) (n m : Nat) : Rx := .seq (rxRep r n) (rxUpTo r (m - n))

/-- `\d`. -/
def rxD : Rx := .cls Char.isDigit

/-- `\w`. -/
def rxW : Rx := .cls isWordChar

/-- `\s`. -/
def rxS : Rx := .cls Char.isWhitespace

/-- `\b ... \b` around an ordered alternation of literal words. -/
def rxWords (alts : List String) : Rx :=
  .seq .bnd (.seq (rxAlt (alts.map rxStr)) .bnd)

/-- `\b ... \b` around an ordered alternation of patterns. -/
def rxWordsR (alts : List Rx) : Rx :=
  .seq .bnd (.seq (rxAlt alts) .bnd)

/-! ## Rule-based detector (`app/detectors/rule_based.py`) -/

/-- Count occurrences of a character. -/
def countChar (c : Char) (l : List Char) : Nat := (l.filter (· = c)).length

/-- Does `s` start with `pat`? -/
def startsWithL : List Char → List Char → Bool
  | [], _ => true
  | _ :: _, [] => false
  | p :: ps, c :: cs => p = c && startsWithL ps cs

/-- Python `pat in s` (substring containment). -/
def containsSub (pat : List Char) : List Char → Bool
  | [] => pat.isEmpty
  | c :: t => startsWithL pat (c :: t) || containsSub pat t

/-- Python `str.split()` accumulator: whitespace-separated words. -/
def splitWsAux : List Char → List Char → List (List Char)
  | cur, [] => if cur.isEmpty then [] else [cur.reverse]
  | cur, c :: t =>
    if c.isWhitespace then
      if cur.isEmpty then splitWsAux [] t else cur.reverse :: splitWsAux [] t
    else splitWsAux (c :: cur) t

/-- Python `str.split()` (split on whitespace runs, no empty words). -/
def splitWs (l : List Char) : List (List Char) := splitWsAux [] l

/-- Python `str.isupper()` (ASCII view): some cased character and every cased
character upper case. -/
def pyIsUpper (w : List Char) : Bool :=
  w.any (·.isAlpha) && w.all (fun c => !c.isAlpha || c.isUpper)

/-- Python `str.title()` for the single-word category tags. -/
def pyTitle (s : String) : String :=
  match s.data with
  | [] => ""
  | c :: t => String.mk (c.toUpper :: t)

/-- `message.lower().strip()`. -/
def normalizeMsg (message : String) : List Char :=
  ((message.data.map Char.toLower).dropWhile Char.isWhitespace).reverse.dropWhile
    Char.isWhitespace |>.reverse

/-- `DetectionSignal`. -/
structure DetectionSignal where
  signal_type : String
  description : String
  weight : ℚ
  matched_text : Option String := none
  confidence : ℚ := 1

/-- `RuleBasedResult`. -/
structure RuleBasedResult where
  score : ℚ
  signals : List DetectionSignal := []
  is_suspicious : Bool := false

/-- `RuleBasedResult._recalculate_score`. -/
def recalculate_score (r : RuleBasedResult) : RuleBasedResult :=
  if r.signals.isEmpty then { r with score := 0 }
  else
    let total_weight := (r.signals.map fun s => s.weight * s.confidence).sum
    let max_possible := (r.signals.length : ℚ) * 1
    let score := min (total_weight / max max_possible 1) 1
    { r with score := score, is_suspicious := decide (score > 3/10) }

/-- `RuleBasedResult.add_signal`. -/
def add_signal (r : RuleBasedResult) (s : DetectionSignal) : RuleBasedResult :=
  recalculate_score { r with signals := r.signals ++ [s] }

/-- One compiled pattern entry `(pattern, category, signal_type, weight)`. -/
structure CompiledPattern where
  rx : Rx
  category : String
  signal_type : String
  weight : ℚ

/-- `self.urgency_patterns`. -/
def urgency_patterns : List (Rx × String × ℚ) :=
  [(rxWords ["urgent", "immediately", "right now", "act now", "hurry", "asap",
      "limited time"], "urgency", 4/10),
   (rxWordsR [rxStr "last chance", rxStr "final notice",
      rxSeq [rxStr "expire", rxOpt (rxCharCI 's'), rxStr " today"],
      rxStr "deadline"], "urgency", 5/10),
   (rxWords ["don't wait", "don't delay", "time sensitive", "act fast"],
      "urgency", 4/10),
   (rxWordsR [rxSeq [rxStr "within ", rxPlus rxD, rxStr " hour", rxOpt (rxCharCI 's')],
      rxSeq [rxStr "within ", rxPlus rxD, rxStr " minute", rxOpt (rxCharCI 's')]],
      "urgency", 5/10)]

/-- `self.payment_patterns`. -/
def payment_patterns : List (Rx × String × ℚ) :=
  [(rxWordsR [rxStr "send money", rxSeq [rxStr "transfer fund", rxOpt (rxCharCI 's')],
      rxStr "wire transfer", rxStr "payment required"], "payment_request", 7/10),
   (rxWords ["bank account", "account number", "routing number"],
      "financial_info_request", 6/10),
   (rxWords ["upi", "@paytm", "@phonepe", "@upi", "@ybl", "@oksbi", "@okicici"],
      "upi_mention", 5/10),
   (rxWordsR [rxStr "pay now", rxStr "pay immediately", rxStr "make payment",
      rxSeq [rxStr "send ", rxOpt (rxCharCI '$'), rxPlus rxD]],
      "payment_request", 7/10),
   (rxWords ["processing fee", "advance fee", "registration fee", "clearance fee"],
      "fee_request", 8/10),
   (rxWordsR [rxSeq [rxStr "gift card", rxOpt (rxCharCI 's')], rxStr "itunes",
      rxSeq [rxStr "google play card", rxOpt (rxCharCI 's')],
      rxSeq [rxStr "amazon card", rxOpt (rxCharCI 's')]],
      "gift_card_request", 9/10)]

/-- `self.prize_patterns`. -/
def prize_patterns : List (Rx × String × ℚ) :=
  [(rxWords ["you've won", "you have won", "winner", "congratulations"],
      "prize_claim", 6/10),
   (rxWords ["lottery", "jackpot", "prize money", "cash prize"],
      "lottery_scam", 8/10),
   (rxWordsR [rxSeq [rxStr "million dollar", rxOpt (rxCharCI 's')],
      rxSeq [rxStr "lakh rupee", rxOpt (rxCharCI 's')],
      rxSeq [rxStr "crore rupee", rxOpt (rxCharCI 's')]], "large_amount", 5/10),
   (rxWords ["selected", "chosen", "lucky winner", "random selection"],
      "prize_claim", 5/10)]

/-- `self.impersonation_patterns`. -/
def impersonation_patterns : List (Rx × String × ℚ) :=
  [(rxWords ["income tax", "it department", "irs", "tax authority"],
      "tax_impersonation", 7/10),
   (rxWords ["rbi", "reserve bank", "central bank"], "bank_impersonation", 7/10),
   (rxWords ["police", "cyber cell", "crime branch", "fbi", "cia"],
      "authority_impersonation", 6/10),
   (rxWordsR [rxSeq [rxAlt [rxStr "microsoft", rxStr "apple", rxStr "google",
      rxStr "amazon"], rxStr " ",
      rxAlt [rxStr "support", rxStr "team", rxStr "security"]]],
      "tech_impersonation", 7/10),
   (rxWords ["customer care", "helpdesk", "technical support"],
      "support_impersonation", 4/10)]

/-- `self.threat_patterns`. -/
def threat_patterns : List (Rx × String × ℚ) :=
  [(rxWords ["arrest", "legal action", "police complaint", "case filed"],
      "threat", 7/10),
   (rxWordsR [rxSeq [rxStr "account ",
      rxAlt [rxStr "blocked", rxStr "suspended", rxStr "frozen"]],
      rxStr "access denied"], "threat", 6/10),
   (rxWords ["warrant", "summons", "court order"], "legal_threat", 8/10),
   (rxWords ["penalty", "fine of", "charged with"], "threat", 5/10)]

/-- `self.info_request_patterns`. -/
def info_request_patterns : List (Rx × String × ℚ) :=
  [(rxWords ["otp", "one time password", "verification code"], "otp_request", 8/10),
   (rxWords ["cvv", "card number", "expiry date", "pin number"],
      "card_info_request", 9/10),
   (rxWords ["aadhaar", "pan card", "passport number", "ssn"], "id_request", 7/10),
   (rxWords ["password", "login credentials", "username"],
      "credential_request", 8/10)]

/-- `self.link_patterns` (no word boundaries in the source patterns). -/
def link_patterns : List (Rx × String × ℚ) :=
  [(rxSeq [rxStr "bit.ly/", rxPlus rxW], "shortened_link", 4/10),
   (rxSeq [rxStr "tinyurl.com/", rxPlus rxW], "shortened_link", 4/10),
   (rxAlt [rxStr "click here", rxStr "click this link", rxStr "click below"],
      "click_bait", 3/10),
   (rxSeq [rxStr "http", rxOpt (rxCharCI 's'), rxStr "://",
      rxPlus (.cls fun c => !c.isWhitespace), rxCharCI '.',
      rxAlt [rxStr "tk", rxStr "ml", rxStr "ga", rxStr "cf", rxStr "gq"]],
      "suspicious_tld", 6/10)]

/-- `_compile_patterns`: the category-tagged flattening of the groups. -/
def compiled_patterns : List CompiledPattern :=
  ([(urgency_patterns, "urgency"), (payment_patterns, "financial"),
    (prize_patterns, "prize"), (impersonation_patterns, "impersonation"),
    (threat_patterns, "threat"), (info_request_patterns, "info_request"),
    (link_patterns, "link")]).flatMap
    (fun g => g.1.map fun p =>
      { rx := p.1, category := g.2, signal_type := p.2.1, weight := p.2.2 })

/-- The f-string description `f"{category.title()}: {signal_type...}"`. -/
def signalDescription (category signal_type : String) : String :=
  pyTitle category ++ ": " ++
    String.map (fun c => if c = '_' then ' ' else c) signal_type

/-- The recognized context keys (see the spec's design note: the source reads
`is_unknown_sender` and `is_first_message` from an ad hoc dict). -/
structure DetectContext where
  is_unknown_sender : Bool := false
  is_first_message : Bool := false

/-- The phone heuristic pattern `(\+91[-\s]?)?[6-9]\d{9}`. -/
def phone_heuristic_pattern : Rx :=
  rxSeq [rxOpt (rxSeq [rxCharCI '+', rxStr "91",
      rxOpt (.cls fun c => c = '-' || c.isWhitespace)]),
    .cls (fun c => c = '6' || c = '7' || c = '8' || c = '9'), rxRep rxD 9]

/-- `_check_heuristics`. -/
def check_heuristics (message : List Char) (r0 : RuleBasedResult) :
    RuleBasedResult :=
  let words := splitWs message
  let caps_words := words.filter fun w => pyIsUpper w && w.length > 2
  let r1 :=
    if caps_words.length > 3 then
      add_signal r0
        { signal_type := "excessive_caps",
          description := "Excessive use of capital letters",
          weight := 3/10,
          matched_text := some
            (String.intercalate " " ((caps_words.take 3).map String.mk)),
          confidence := 7/10 }
    else r0
  let exclamation_count := countChar '!' message
  let r2 :=
    if exclamation_count > 3 then
      add_signal r1
        { signal_type := "excessive_punctuation",
          description := "Excessive exclamation marks",
          weight := 2/10,
          matched_text := some (toString exclamation_count ++ " exclamation marks"),
          confidence := 6/10 }
    else r1
  let r3 :=
    if message.length < 50 &&
        (containsSub "http".data message || containsSub "www".data message) then
      add_signal r2
        { signal_type := "short_with_link",
          description := "Short message with link",
          weight := 4/10, confidence := 5/10 }
    else r2
  let phones := scanAll phone_heuristic_pattern none message
  if !phones.isEmpty then
    add_signal r3
      { signal_type := "phone_number",
        description := "Phone number detected",
        weight := 2/10,
        matched_text := some (String.mk (phones.headD [])),
        confidence := 9/10 }
  else r3

/-- `_apply_context`. -/
def apply_context (context : DetectContext) (r0 : RuleBasedResult) :
    RuleBasedResult :=
  let r1 :=
    if context.is_unknown_sender then
      recalculate_score
        { r0 with signals := r0.signals.map fun s =>
            { s with weight := s.weight * (12/10) } }
    else r0
  if context.is_first_message then
    let payment_signals := r1.signals.filter fun s =>
      containsSub "payment".data s.signal_type.data ||
        containsSub "fee".data s.signal_type.data
    if !payment_signals.isEmpty then
      add_signal r1
        { signal_type := "first_message_payment",
          description := "Payment request in first message",
          weight := 4/10, confidence := 8/10 }
    else r1
  else r1

/-- The body of `detect`'s pattern loop: run one compiled pattern and record
a signal when it matched (`confidence = min(1.0, 0.5 + len(matches)*0.1)`). -/
def patternStep (normalized : List Char) (r : RuleBasedResult)
    (p : CompiledPattern) : RuleBasedResult :=
  match scanAll p.rx none normalized with
  | [] => r
  | m :: rest =>
    add_signal r
      { signal_type := p.signal_type,
        description := signalDescription p.category p.signal_type,
        weight := p.weight,
        matched_text := some (String.mk m),
        confidence := min 1 (1/2 + (((m :: rest).length : ℚ) * (1/10))) }

/-- `RuleBasedDetector.detect`. -/
def detect (message : String) (context : Option DetectContext := none) :
    RuleBasedResult :=
  let normalized := normalizeMsg message
  let result := compiled_patterns.foldl (patternStep normalized) { score := 0 }
  let result := check_heuristics normalized result
  match context with
  | none => result
  | some c => apply_context c result

/-! ## Theorems: rule-based detector -/

/-- The claimed score formula: sum of `weight * confidence` over matched
signals divided by their number, clamped to 1, and 0 with no signals. -/
def scoreFormula (signals : List DetectionSignal) : ℚ :=
  if signals.isEmpty then 0
  else min (((signals.map fun s => s.weight * s.confidence).sum) /
    (signals.length : ℚ)) 1

/-- All signals carry non-negative weight and confidence. -/
def DetSignalsOK (l : List DetectionSignal) : Prop :=
  ∀ s ∈ l, 0 ≤ s.weight ∧ 0 ≤ s.confidence

/-- Standing invariant of a detector result. -/
def DetInv (r : RuleBasedResult) : Prop :=
  r.score = scoreFormula r.signals ∧
  r.is_suspicious = decide (scoreFormula r.signals > 3/10) ∧
  DetSignalsOK r.signals

theorem scoreFormula_nonneg {l : List DetectionSignal} (h : DetSignalsOK l) :
    0 ≤ scoreFormula l := by
  unfold scoreFormula
  split
  · exact le_refl 0
  · refine le_min ?_ (by norm_num)
    refine div_nonneg ?_ (by positivity)
    refine List.sum_nonneg ?_
    intro x hx
    simp only [List.mem_map] at hx
    obtain ⟨s, hs, rfl⟩ := hx
    exact mul_nonneg (h s hs).1 (h s hs).2

theorem scoreFormula_le_one (l : List DetectionSignal) : scoreFormula l ≤ 1 := by
  unfold scoreFormula
  split
  · norm_num
  · exact min_le_right _ _

theorem recalculate_score_inv (r : RuleBasedResult)
    (hok : DetSignalsOK r.signals)
    (hemp : r.signals.isEmpty = true → r.is_suspicious = false) :
    DetInv (recalculate_score r) := by
  unfold recalculate_score
  split
  · next he =>
    have hl : r.signals = [] := by simpa [List.isEmpty_iff] using he
    refine ⟨?_, ?_, ?_⟩
    · simp [scoreFormula, hl]
    · have h1 : r.is_suspicious = false := hemp he
      simp only [hl]
      rw [h1]
      exact (decide_eq_false (by norm_num [scoreFormula])).symm
    · simpa [hl] using hok
  · next hne =>
    have hl : r.signals ≠ [] := by simpa [List.isEmpty_iff] using hne
    have hlen : 0 < r.signals.length := List.length_pos.mpr hl
    have hmax : max ((r.signals.length : ℚ) * 1) 1 = (r.signals.length : ℚ) := by
      rw [mul_one]
      exact max_eq_left (by exact_mod_cast hlen)
    have hform : scoreFormula r.signals =
        min (((r.signals.map fun s => s.weight * s.confidence).sum) /
          (r.signals.length : ℚ)) 1 := by
      unfold scoreFormula
      rw [if_neg (by simpa [List.isEmpty_iff] using hl)]
    refine ⟨?_, ?_, ?_⟩
    · simp only [hform, hmax]
    · simp only [hform, hmax]
    · exact hok

theorem add_signal_inv {r : RuleBasedResult} {s : DetectionSignal}
    (h : DetInv r) (hw : 0 ≤ s.weight) (hc : 0 ≤ s.confidence) :
    DetInv (add_signal r s) := by
  refine recalculate_score_inv _ ?_ ?_
  · intro x hx
    simp only [List.mem_append, List.mem_singleton] at hx
    rcases hx with hx | rfl
    · exact h.2.2 x hx
    · exact ⟨hw, hc⟩
  · intro he
    simp at he

theorem ite_add_signal_inv (c : Prop) [Decidable c] (r : RuleBasedResult)
    (s : DetectionSignal) (h : DetInv r) (hw : 0 ≤ s.weight)
    (hc : 0 ≤ s.confidence) :
    DetInv (if c then add_signal r s else r) := by
  split
  · exact add_signal_inv h hw hc
  · exact h

theorem patternStep_inv (nm : List Char) {r : RuleBasedResult}
    (p : CompiledPattern) (h : DetInv r) (hw : 0 ≤ p.weight) :
    DetInv (patternStep nm r p) := by
  unfold patternStep
  split
  · exact h
  · refine add_signal_inv h hw (le_min (by norm_num) (by positivity))

theorem foldl_patternStep_inv (nm : List Char) (ps : List CompiledPattern)
    (hw : ∀ p ∈ ps, 0 ≤ p.weight) :
    ∀ r, DetInv r → DetInv (ps.foldl (patternStep nm) r) := by
  induction ps with
  | nil => intro r h; exact h
  | cons p t ih =>
    intro r h
    rw [List.foldl_cons]
    exact ih (fun q hq => hw q (List.mem_cons_of_mem _ hq)) _
      (patternStep_inv nm p h (hw p (List.mem_cons_self _ _)))

theorem compiled_patterns_weight_nonneg :
    ∀ p ∈ compiled_patterns, 0 ≤ p.weight := by
  intro p hp
  fin_cases hp <;> norm_num

theorem check_heuristics_inv (nm : List Char) {r : RuleBasedResult}
    (h : DetInv r) : DetInv (check_heuristics nm r) := by
  unfold check_heuristics
  refine ite_add_signal_inv _ _ _
    (ite_add_signal_inv _ _ _
      (ite_add_signal_inv _ _ _
        (ite_add_signal_inv _ _ _ h (by norm_num) (by norm_num))
        (by norm_num) (by norm_num))
      (by norm_num) (by norm_num))
    (by norm_num) (by norm_num)

theorem unknown_sender_recalc_inv {r : RuleBasedResult} (h : DetInv r) :
    DetInv (recalculate_score
      { r with signals := r.signals.map fun s =>
          { s with weight := s.weight * (12/10) } }) := by
  refine recalculate_score_inv _ ?_ ?_
  · intro s hs
    simp only [List.mem_map] at hs
    obtain ⟨x, hx, rfl⟩ := hs
    have hx' := h.2.2 x hx
    exact ⟨mul_nonneg hx'.1 (by norm_num), hx'.2⟩
  · intro he
    have hl : r.signals = [] := by
      simpa [List.isEmpty_iff, List.map_eq_nil_iff] using he
    have h2 := h.2.1
    rw [hl] at h2
    rw [h2]
    exact decide_eq_false (by norm_num [scoreFormula])

theorem apply_context_inv (c : DetectContext) {r : RuleBasedResult}
    (h : DetInv r) : DetInv (apply_context c r) := by
  unfold apply_context
  by_cases hu : c.is_unknown_sender = true <;>
    by_cases hf : c.is_first_message = true <;>
      simp only [hu, hf, if_true, if_false, Bool.false_eq_true]
  · split
    · exact add_signal_inv (unknown_sender_recalc_inv h) (by norm_num) (by norm_num)
    · exact unknown_sender_recalc_inv h
  · exact unknown_sender_recalc_inv h
  · split
    · exact add_signal_inv h (by norm_num) (by norm_num)
    · exact h
  · exact h

theorem detect_inv (message : String) (context : Option DetectContext) :
    DetInv (detect message context) := by
  have hbase : DetInv ({ score := 0 } : RuleBasedResult) := by
    refine ⟨by simp [scoreFormula], ?_, by intro s hs; simp at hs⟩
    rw [show ({ score := 0 } : RuleBasedResult).is_suspicious = false from rfl]
    exact (decide_eq_false (by norm_num [scoreFormula])).symm
  have h1 := foldl_patternStep_inv (normalizeMsg message) compiled_patterns
    compiled_patterns_weight_nonneg _ hbase
  have h2 := check_heuristics_inv (normalizeMsg message) h1
  unfold detect
  cases context with
  | none => exact h2
  | some c => exact apply_context_inv c h2

/-- C4: for every input text and optional context, the heuristic detector's
score equals the sum of `weight * confidence` over matched signals divided by
the number of matched signals, clamped to at most 1 (and 0 with no matched
signal); the score lies in `[0, 1]`; and `is_suspicious` holds exactly when
the score exceeds 0.3. -/
theorem detect_score_spec (message : String) (context : Option DetectContext) :
    (detect message context).score = scoreFormula (detect message context).signals ∧
    0 ≤ (detect message context).score ∧
    (detect message context).score ≤ 1 ∧
    ((detect message context).is_suspicious = true ↔
      (detect message context).score > 3/10) := by
  obtain ⟨h1, h2, h3⟩ := detect_inv message context
  refine ⟨h1, ?_, ?_, ?_⟩
  · rw [h1]; exact scoreFormula_nonneg h3
  · rw [h1]; exact scoreFormula_le_one _
  · rw [h1, h2]
    simp [decide_eq_true_eq]

/-- The detector's score always lies in `[0, 1]` (shared helper). -/
theorem detect_score_mem (message : String) (context : Option DetectContext) :
    0 ≤ (detect message context).score ∧ (detect message context).score ≤ 1 := by
  obtain ⟨h1, _, h3⟩ := detect_inv message context
  rw [h1]
  exact ⟨scoreFormula_nonneg h3, scoreFormula_le_one _⟩

/-- The scenario message of C9. -/
def c9msg : String :=
  "You have won $1,000,000! Send $500 processing fee to claim@upi now!"

theorem c9_signal_types :
    ((detect c9msg none).signals.map (·.signal_type)) =
      ["upi_mention", "payment_request", "fee_request", "prize_claim"] := rfl

theorem c9_signal_weights :
    ((detect c9msg none).signals.map fun s => s.weight * s.confidence) =
      [(5:ℚ)/10 * min 1 (1/2 + (((1:Nat) : ℚ) * (1/10))),
       (7:ℚ)/10 * min 1 (1/2 + (((1:Nat) : ℚ) * (1/10))),
       (8:ℚ)/10 * min 1 (1/2 + (((1:Nat) : ℚ) * (1/10))),
       (6:ℚ)/10 * min 1 (1/2 + (((1:Nat) : ℚ) * (1/10)))] := rfl

theorem c9_score : (detect c9msg none).score = 39/100 := by
  have hinv := detect_inv c9msg none
  have hlen : (detect c9msg none).signals.length = 4 := by
    have := congrArg List.length c9_signal_types
    simpa using this
  have hne : (detect c9msg none).signals.isEmpty = false := by
    rcases h : (detect c9msg none).signals with _ | _
    · rw [h] at hlen; simp at hlen
    · simp [List.isEmpty]
  rw [hinv.1]
  unfold scoreFormula
  rw [hne]
  simp only [Bool.false_eq_true, if_false, c9_signal_weights, hlen]
  have hmin : min (1:ℚ) (1/2 + (((1:Nat) : ℚ) * (1/10))) = 6/10 := by
    rw [min_eq_right] <;> norm_num
  rw [hmin]
  norm_num

/-- C9 counterexample: on the scenario message the detector raises no
`urgency` signal and its score is 0.39, not greater than 0.5. -/
theorem c9_detect_cex :
    "urgency" ∉ ((detect c9msg none).signals.map (·.signal_type)) ∧
    ¬ ((detect c9msg none).score > 1/2) := by
  constructor
  · rw [c9_signal_types]
    simp
  · rw [c9_score]
    norm_num

/-- C9 (amended): on the scenario message the detector flags exactly
`upi_mention`, `payment_request`, `fee_request` and `prize_claim` (so
`prize_claim` and `fee_request` are present but no `urgency` signal fires);
the score is 0.39 — above the 0.3 suspicion threshold but not above 0.5 —
and `is_suspicious` is true. -/
theorem c9_detect_amended :
    ((detect c9msg none).signals.map (·.signal_type)) =
      ["upi_mention", "payment_request", "fee_request", "prize_claim"] ∧
    (detect c9msg none).score = 39/100 ∧
    (detect c9msg none).score > 3/10 ∧
    (detect c9msg none).is_suspicious = true := by
  refine ⟨c9_signal_types, c9_score, ?_, ?_⟩
  · rw [c9_score]; norm_num
  · obtain ⟨h1, h2, _⟩ := detect_inv c9msg none
    rw [h2, ← h1, c9_score]
    exact decide_eq_true (by norm_num)

/-! ## Ensemble risk engine (`app/scoring/ensemble_engine.py`) -/

/-- `RiskSignal`. -/
structure RiskSignal where
  source : String
  signal_type : String
  description : String
  weight : ℚ
  confidence : ℚ
  matched_text : Option String := none

/-- `EnsembleResult` (`processing_time_ms`, wall clock, omitted). -/
structure EnsembleResult where
  scam_detected : Bool
  risk_score : ℚ
  confidence : ℚ
  risk_level : String
  scam_type : Option String := none
  signals : List RiskSignal := []
  reasons : List String := []
  models_used : List String := []
  rule_based_score : Option ℚ := none
  llm_score : Option ℚ := none

/-- `EnsembleResult.add_reason` (dedups, keeps insertion order). -/
def add_reason (r : EnsembleResult) (reason : String) : EnsembleResult :=
  if reason ∈ r.reasons then r else { r with reasons := r.reasons ++ [reason] }

/-- The external classifier's reply dict
`{is_scam, confidence, scam_type, reasons}`. -/
structure LlmClassification where
  is_scam : Bool
  confidence : ℚ
  scam_type : Option String := none
  reasons : List String := []

/-- `EnsembleRiskEngine._determine_risk_level`. -/
def determine_risk_level (score : ℚ) : String :=
  if score ≥ 9/10 then "critical"
  else if score ≥ 8/10 then "high"
  else if score ≥ 7/10 then "medium"
  else "low"

/-- `EnsembleRiskEngine._calculate_ensemble_score`: the two-layer weighted
combination (0.4/0.6), agreement bonus, disagreement-degraded confidence;
without the external layer, heuristic-only score with fixed 0.6 confidence
and a degraded-analysis reason. -/
def calculate_ensemble_score (result : EnsembleResult) (rule_score : ℚ)
    (llm_result : Option LlmClassification) : EnsembleResult :=
  match llm_result, result.llm_score with
  | some _, some llm_score =>
    let raw_score := rule_score * (4/10) + llm_score * (6/10)
    let agreement_bonus : ℚ :=
      if (rule_score > 1/2 ∧ llm_score > 1/2) ∨
          (rule_score < 3/10 ∧ llm_score < 3/10) then 1/10 else 0
    let score_diff := |rule_score - llm_score|
    let confidence := max 0 (1 - score_diff * (1/2))
    { result with risk_score := min (raw_score + agreement_bonus) 1,
                  confidence := confidence }
  | _, _ =>
    add_reason
      { result with risk_score := rule_score, confidence := 6/10 }
      "Analysis based on pattern matching only (LLM unavailable)"

/-- `EnsembleRiskEngine.analyze`. The awaited external-classifier call is
passed as an `Except`: `.ok` is a returned classification, `.error` a raised
exception (caught internally, never propagated — `analyze` is total). -/
def analyze (message : String) (context : Option DetectContext)
    (llm : Except String LlmClassification) (use_llm : Bool := true) :
    EnsembleResult :=
  let result : EnsembleResult :=
    { scam_detected := false, risk_score := 0, confidence := 0,
      risk_level := "low" }
  let rule_result := detect message context
  let result := { result with
    rule_based_score := some rule_result.score,
    models_used := result.models_used ++ ["rule_based"] }
  let result := rule_result.signals.foldl
    (fun r s => add_reason
      { r with signals := r.signals ++
          [{ source := "rule_based", signal_type := s.signal_type,
             description := s.description, weight := s.weight,
             confidence := s.confidence, matched_text := s.matched_text }] }
      s.description)
    result
  let stage :=
    if use_llm then
      match llm with
      | .ok lr =>
        let result := { result with
          llm_score := some (if lr.is_scam then lr.confidence else 0),
          models_used := result.models_used ++ ["gemini"] }
        let result :=
          if lr.is_scam then
            let result := { result with signals := result.signals ++
                [{ source := "gemini", signal_type := "llm_classification",
                   description := "LLM classified as " ++ (lr.scam_type.getD "scam"),
                   weight := 8/10, confidence := lr.confidence }] }
            let result := lr.reasons.foldl add_reason result
            match lr.scam_type with
            | some st => { result with scam_type := some st }
            | none => result
          else result
        (result, some lr)
      | .error _ => ({ result with llm_score := none }, none)
    else (result, none)
  let result := calculate_ensemble_score stage.1 rule_result.score stage.2
  let result := { result with risk_level := determine_risk_level result.risk_score }
  { result with scam_detected := decide (result.risk_score ≥ 7/10) }

/-- The external score the ensemble uses:
`llm_result['confidence'] if llm_result['is_scam'] else 0.0`. -/
def llmScoreOf (cls : LlmClassification) : ℚ :=
  if cls.is_scam then cls.confidence else 0

/-- The claimed agreement bonus. -/
def agreementBonus (h e : ℚ) : ℚ :=
  if (h > 1/2 ∧ e > 1/2) ∨ (h < 3/10 ∧ e < 3/10) then 1/10 else 0

/-! ## Theorems: ensemble risk engine -/

theorem add_reason_risk_score (r : EnsembleResult) (s : String) :
    (add_reason r s).risk_score = r.risk_score := by
  unfold add_reason; split <;> rfl

theorem add_reason_confidence (r : EnsembleResult) (s : String) :
    (add_reason r s).confidence = r.confidence := by
  unfold add_reason; split <;> rfl

theorem add_reason_llm_score (r : EnsembleResult) (s : String) :
    (add_reason r s).llm_score = r.llm_score := by
  unfold add_reason; split <;> rfl

theorem mem_add_reason_self (r : EnsembleResult) (s : String) :
    s ∈ (add_reason r s).reasons := by
  unfold add_reason
  split
  · assumption
  · simp

theorem foldl_add_reason_llm_score (l : List String) (r : EnsembleResult) :
    (l.foldl add_reason r).llm_score = r.llm_score := by
  induction l generalizing r with
  | nil => rfl
  | cons a t ih => rw [List.foldl_cons, ih, add_reason_llm_score]

/-- C6: when the external classifier raises during `analyze`, the error is
caught (`analyze` is total and returns a result): the risk score equals the
heuristic score alone, the confidence is the fixed constant 0.6, and the
degraded-analysis reason is appended. -/
theorem analyze_classifier_failure (message : String)
    (context : Option DetectContext) (e : String) :
    (analyze message context (.error e) true).risk_score =
      (detect message context).score ∧
    (analyze message context (.error e) true).confidence = 6/10 ∧
    "Analysis based on pattern matching only (LLM unavailable)" ∈
      (analyze message context (.error e) true).reasons := by
  refine ⟨?_, ?_, ?_⟩ <;>
    simp [analyze, calculate_ensemble_score, add_reason_risk_score,
      add_reason_confidence, mem_add_reason_self]

/-- The `.ok` path of `analyze`: the combined score, the confidence formula,
and how `risk_level`/`scam_detected` are derived from the combined score. -/
theorem analyze_ok_fields (message : String) (context : Option DetectContext)
    (cls : LlmClassification) :
    (analyze message context (.ok cls) true).risk_score =
      min ((detect message context).score * (4/10) + llmScoreOf cls * (6/10) +
        agreementBonus (detect message context).score (llmScoreOf cls)) 1 ∧
    (analyze message context (.ok cls) true).confidence =
      max 0 (1 - |(detect message context).score - llmScoreOf cls| * (1/2)) ∧
    (analyze message context (.ok cls) true).risk_level =
      determine_risk_level (analyze message context (.ok cls) true).risk_score ∧
    (analyze message context (.ok cls) true).scam_detected =
      decide ((analyze message context (.ok cls) true).risk_score ≥ 7/10) := by
  by_cases hscam : cls.is_scam = true <;> rcases hst : cls.scam_type with _ | st <;>
    refine ⟨?_, ?_, ?_, ?_⟩ <;>
      simp [analyze, calculate_ensemble_score, llmScoreOf, agreementBonus,
        hscam, hst, foldl_add_reason_llm_score, add_reason_llm_score]

/-- C3: with both layers available, `analyze` returns
`risk_score = min(0.4*h + 0.6*e + bonus, 1)` with the +0.1 agreement bonus
exactly when both scores agree (> 0.5 or < 0.3);
`confidence = max(0, 1 - |h - e| * 0.5)`, strictly decreasing in `|h - e|`;
the risk level bands `< 0.7` low, `[0.7, 0.8)` medium, `[0.8, 0.9)` high,
`≥ 0.9` critical; and `scam_detected` holds exactly when
`risk_score ≥ 0.7`. -/
theorem analyze_ensemble_policy (message : String)
    (context : Option DetectContext) (cls : LlmClassification)
    (hc0 : 0 ≤ cls.confidence) (hc1 : cls.confidence ≤ 1) :
    (analyze message context (.ok cls) true).risk_score =
      min ((detect message context).score * (4/10) + llmScoreOf cls * (6/10) +
        agreementBonus (detect message context).score (llmScoreOf cls)) 1 ∧
    (analyze message context (.ok cls) true).confidence =
      max 0 (1 - |(detect message context).score - llmScoreOf cls| * (1/2)) ∧
    ((analyze message context (.ok cls) true).risk_score < 7/10 →
      (analyze message context (.ok cls) true).risk_level = "low") ∧
    (7/10 ≤ (analyze message context (.ok cls) true).risk_score →
      (analyze message context (.ok cls) true).risk_score < 8/10 →
      (analyze message context (.ok cls) true).risk_level = "medium") ∧
    (8/10 ≤ (analyze message context (.ok cls) true).risk_score →
      (analyze message context (.ok cls) true).risk_score < 9/10 →
      (analyze message context (.ok cls) true).risk_level = "high") ∧
    (9/10 ≤ (analyze message context (.ok cls) true).risk_score →
      (analyze message context (.ok cls) true).risk_level = "critical") ∧
    ((analyze message context (.ok cls) true).scam_detected = true ↔
      (analyze message context (.ok cls) true).risk_score ≥ 7/10) ∧
    (∀ (m2 : String) (c2 : Option DetectContext) (cls2 : LlmClassification),
      0 ≤ cls2.confidence → cls2.confidence ≤ 1 →
      |(detect message context).score - llmScoreOf cls| <
        |(detect m2 c2).score - llmScoreOf cls2| →
      (analyze m2 c2 (.ok cls2) true).confidence <
        (analyze message context (.ok cls) true).confidence) := by
  obtain ⟨hrs, hcf, hrl, hsd⟩ := analyze_ok_fields message context cls
  have hh := detect_score_mem message context
  have he0 : 0 ≤ llmScoreOf cls := by
    unfold llmScoreOf; split
    · exact hc0
    · exact le_refl 0
  have he1 : llmScoreOf cls ≤ 1 := by
    unfold llmScoreOf; split
    · exact hc1
    · norm_num
  have hd1 : |(detect message context).score - llmScoreOf cls| ≤ 1 :=
    abs_le.mpr ⟨by linarith [hh.1, hh.2], by linarith [hh.1, hh.2]⟩
  refine ⟨hrs, hcf, ?_, ?_, ?_, ?_, ?_, ?_⟩
  · intro h1
    rw [hrl]
    unfold determine_risk_level
    rw [if_neg (by linarith), if_neg (by linarith), if_neg (by linarith)]
  · intro h1 h2
    rw [hrl]
    unfold determine_risk_level
    rw [if_neg (by linarith), if_neg (by linarith), if_pos h1]
  · intro h1 h2
    rw [hrl]
    unfold determine_risk_level
    rw [if_neg (by linarith), if_pos h1]
  · intro h1
    rw [hrl]
    unfold determine_risk_level
    rw [if_pos h1]
  · rw [hsd]
    simp [decide_eq_true_eq]
  · intro m2 c2 cls2 _ _ hlt
    obtain ⟨_, hcf2, _, _⟩ := analyze_ok_fields m2 c2 cls2
    have habs : 0 ≤ |(detect message context).score - llmScoreOf cls| :=
      abs_nonneg _
    have hmax1 : max (0 : ℚ)
        (1 - |(detect message context).score - llmScoreOf cls| * (1/2)) =
        1 - |(detect message context).score - llmScoreOf cls| * (1/2) :=
      max_eq_right (by linarith)
    rw [hcf, hcf2, hmax1]
    exact max_lt (by linarith) (by linarith)

/-- External classification for the C3 witness. -/
def c3cls : LlmClassification := { is_scam := true, confidence := 1/2 }

/-- C3 witness: the scam-detected threshold equivalence at a concrete call. -/
theorem analyze_ensemble_policy_witness :
    ((analyze "x" none (.ok c3cls) true).scam_detected = true ↔
      (analyze "x" none (.ok c3cls) true).risk_score ≥ 7/10) :=
  (analyze_ensemble_policy "x" none c3cls (by norm_num [c3cls])
    (by norm_num [c3cls])).2.2.2.2.2.2.1

/-! ## Safety guardrails, output screening (`app/safety/guardrails.py`) -/

/-- `SafetyCheckResult`. -/
structure SafetyCheckResult where
  is_safe : Bool
  violations : List String
  risk_level : String
  should_terminate : Bool
  action_required : Option String := none

/-- `self.forbidden_output_patterns` (compiled with `re.IGNORECASE`). -/
def forbidden_output_patterns : List Rx :=
  [ -- (?:my|our|the)\s+(?:bank|account)\s+(?:number|details?)\s+(?:is|are)
   rxSeq [rxAlt [rxStr "my", rxStr "our", rxStr "the"], rxPlus rxS,
     rxAlt [rxStr "bank", rxStr "account"], rxPlus rxS,
     rxAlt [rxStr "number", rxSeq [rxStr "detail", rxOpt (rxCharCI 's')]],
     rxPlus rxS, rxAlt [rxStr "is", rxStr "are"]],
   -- (?:my|our)\s+(?:upi|payment)\s+(?:id|address)\s+(?:is)
   rxSeq [rxAlt [rxStr "my", rxStr "our"], rxPlus rxS,
     rxAlt [rxStr "upi", rxStr "payment"], rxPlus rxS,
     rxAlt [rxStr "id", rxStr "address"], rxPlus rxS, rxStr "is"],
   -- (?:here|take)\s+(?:is|are)?\s*(?:my|our|the)\s+(?:card|cvv|pin)
   rxSeq [rxAlt [rxStr "here", rxStr "take"], rxPlus rxS,
     rxOpt (rxAlt [rxStr "is", rxStr "are"]), .star rxS,
     rxAlt [rxStr "my", rxStr "our", rxStr "the"], rxPlus rxS,
     rxAlt [rxStr "card", rxStr "cvv", rxStr "pin"]],
   -- (?:i|we)\s+(?:will|shall|am going to)\s+(?:send|transfer|pay)
   rxSeq [rxAlt [rxStr "i", rxStr "we"], rxPlus rxS,
     rxAlt [rxStr "will", rxStr "shall", rxStr "am going to"], rxPlus rxS,
     rxAlt [rxStr "send", rxStr "transfer", rxStr "pay"]],
   -- (?:sending|transferring)\s+(?:\$|₹|rs\.?|inr|usd)
   rxSeq [rxAlt [rxStr "sending", rxStr "transferring"], rxPlus rxS,
     rxAlt [rxCharCI '$', rxCharCI '₹',
       rxSeq [rxStr "rs", rxOpt (rxCharCI '.')], rxStr "inr", rxStr "usd"]]]

/-- `real_upi_pattern = r'[a-z]+@(?:ok(?:sbi|icici|axis|hdfc)|ybl|paytm|phonepe)'`
(searched against `response.lower()`). -/
def real_upi_pattern : Rx :=
  rxSeq [rxPlus (.cls fun c => 'a' ≤ c && c ≤ 'z'), rxCharCS '@',
    rxAlt [rxSeq [rxStrCS "ok", rxAlt [rxStrCS "sbi", rxStrCS "icici",
        rxStrCS "axis", rxStrCS "hdfc"]],
      rxStrCS "ybl", rxStrCS "paytm", rxStrCS "phonepe"]]

/-- `real_account_pattern = r'\b\d{9,18}\b'`. The source defines this local
variable in `check_output_safety` but never searches it: the 9-to-18-digit
account-number screen is dead code. -/
def real_account_pattern : Rx := rxSeq [.bnd, rxRepRange rxD 9 18, .bnd]

/-- The `pii_patterns` list: Aadhaar-like 12-digit runs and PAN-shaped codes
(searched case sensitively against the original response). -/
def pii_patterns : List (Rx × String) :=
  [(rxSeq [.bnd, rxRep rxD 12, .bnd], "Aadhaar-like number"),
   (rxSeq [rxRep (.cls fun c => 'A' ≤ c && c ≤ 'Z') 5, rxRep rxD 4,
     .cls fun c => 'A' ≤ c && c ≤ 'Z'], "PAN-like pattern")]

/-- `SafetyGuardrails.check_output_safety`. The violation strings abbreviate
the source's f-strings (which embed the first 30 characters of the regex
text); no claim inspects them. `real_account_pattern` is, as in the source,
defined but never consulted. -/
def check_output_safety (response : String) : SafetyCheckResult :=
  let violations := forbidden_output_patterns.foldl
    (fun acc p => if searchRx p response.data then
      acc ++ ["Forbidden output pattern"] else acc) []
  let violations :=
    if searchRx real_upi_pattern (response.data.map Char.toLower) then
      violations ++ ["Response contains UPI-like pattern"]
    else violations
  let violations := pii_patterns.foldl
    (fun acc pd => if searchRx pd.1 response.data then
      acc ++ ["Possible PII: " ++ pd.2] else acc) violations
  let should_terminate := violations.length > 0
  { is_safe := violations.isEmpty,
    violations := violations,
    risk_level := if !violations.isEmpty then "critical" else "safe",
    should_terminate := should_terminate,
    action_required := if !violations.isEmpty then some "block_response" else none }

/-- A generated reply containing a 9-digit account-number-shaped run. -/
def c7reply : String := "Sure, it is 123456789"

/-- The same reply with a 12-digit run instead. -/
def c7reply12 : String := "Sure, it is 123456789012"

/-- C7 (code bug): the output-safety check does not flag a reply containing a
9-digit account-number-shaped run: `is_safe` is true and nothing blocks the
reply, because the source's `real_account_pattern` (`\b\d{9,18}\b`) is
defined but never searched. A 12-digit run is flagged (by the Aadhaar-like
PII pattern), showing the screen itself is otherwise active. -/
theorem check_output_safety_digit_run_not_blocked :
    containsSub "123456789".data c7reply.data = true ∧
    (check_output_safety c7reply).is_safe = true ∧
    (check_output_safety c7reply).action_required = none ∧
    (check_output_safety c7reply12).is_safe = false ∧
    (check_output_safety c7reply12).action_required = some "block_response" :=
  ⟨rfl, rfl, rfl, rfl, rfl⟩

/-! ## Scam network analyzer (`app/scoring/network_analyzer.py`) -/

/-- Python `str.strip()` on a character list. -/
def stripWs (l : List Char) : List Char :=
  ((l.dropWhile Char.isWhitespace).reverse.dropWhile Char.isWhitespace).reverse

/-- The domain part of the first `https?://` occurrence, if any
(`re.search(r'https?://([^/]+)', value)`). -/
def findSchemeDomain : List Char → Option (List Char)
  | [] => none
  | c :: t =>
    let rest? :=
      if startsWithL "https://".data (c :: t) then some ((c :: t).drop 8)
      else if startsWithL "http://".data (c :: t) then some ((c :: t).drop 7)
      else none
    match rest? with
    | some rest =>
      let dom := rest.takeWhile (· ≠ '/')
      if dom.isEmpty then findSchemeDomain t else some dom
    | none => findSchemeDomain t

/-- `NetworkAnalyzer._normalize_identifier`. -/
def normalize_identifier (id_type value : String) : String :=
  if id_type = "phone_number" then
    let digits := value.data.filter Char.isDigit
    if digits.length ≥ 10 then String.mk (digits.drop (digits.length - 10))
    else String.mk digits
  else if id_type = "upi_id" then
    String.mk (stripWs (value.data.map Char.toLower))
  else if id_type = "email" then
    String.mk (stripWs (value.data.map Char.toLower))
  else if id_type = "url" then
    match findSchemeDomain value.data with
    | some dom => String.mk (dom.map Char.toLower)
    | none => String.mk (value.data.map Char.toLower)
  else String.mk (stripWs value.data)

/-- `NetworkNode` (datetime fields omitted). -/
structure NetworkNode where
  scammer_id : String
  identifiers : List (String × List String) := []
  connections : List String := []
  conversation_count : Nat := 0

/-- `NetworkAnalyzer`: the identifier-to-scammers index and the node dict. -/
structure NetworkAnalyzer where
  idToScammers : List (String × List String) := []
  scammerNodes : List (String × NetworkNode) := []

/-- The registered scammer ids, in insertion order. -/
def nodeIds (g : NetworkAnalyzer) : List String := g.scammerNodes.map (·.1)

/-- Store a node under its id. -/
def setNode (g : NetworkAnalyzer) (sid : String) (n : NetworkNode) :
    NetworkAnalyzer :=
  { g with scammerNodes := upsertA g.scammerNodes sid n }

/-- `self._identifier_to_scammers[id_key]` (a `defaultdict(set)`). -/
def usersOf (g : NetworkAnalyzer) (key : String) : List String :=
  (lookupA g.idToScammers key).getD []

/-- The connection set of a registered scammer. -/
def connsOf (g : NetworkAnalyzer) (sid : String) : List String :=
  match lookupA g.scammerNodes sid with
  | some n => n.connections
  | none => []

/-- The body of `add_scammer`'s connection loop: connect both directions
(the reverse edge is guarded by `other_id in self._scammer_nodes`). -/
def addConnection (g : NetworkAnalyzer) (sid other : String) : NetworkAnalyzer :=
  let g1 :=
    match lookupA g.scammerNodes sid with
    | some n => setNode g sid { n with connections := insertNew n.connections other }
    | none => g
  match lookupA g1.scammerNodes other with
  | some n => setNode g1 other { n with connections := insertNew n.connections sid }
  | none => g1

/-- Registration of one identifier value: normalize, record it on the node,
connect to every existing user of the same normalized key, then add the
scammer to the key's user set. -/
def registerStep1 (g : NetworkAnalyzer) (sid id_type value : String) :
    NetworkAnalyzer :=
  let normalized := normalize_identifier id_type value
  match lookupA g.scammerNodes sid with
  | some n =>
    let cur := (lookupA n.identifiers id_type).getD []
    if normalized ∈ cur then g
    else setNode g sid
      { n with identifiers := upsertA n.identifiers id_type (cur ++ [normalized]) }
  | none => g

def registerTail (g1 : NetworkAnalyzer) (sid id_key : String) : NetworkAnalyzer :=
  let existing_users := usersOf g1 id_key
  let g2 := existing_users.foldl
    (fun g other => if other ≠ sid then addConnection g sid other else g) g1
  { g2 with
    idToScammers := upsertA g2.idToScammers id_key (insertNew existing_users sid) }

def registerValue (g : NetworkAnalyzer) (sid id_type value : String) :
    NetworkAnalyzer :=
  registerTail (registerStep1 g sid id_type value) sid
    (id_type ++ ":" ++ normalize_identifier id_type value)

/-- "Get or create node": the first step of `add_scammer`. -/
def ensureNode (g : NetworkAnalyzer) (sid : String) : NetworkAnalyzer :=
  if hasKeyA g.scammerNodes sid then g
  else setNode g sid { scammer_id := sid }

/-- The `conversation_count` bump of `add_scammer`. -/
def bumpCount (g : NetworkAnalyzer) (sid : String) (cid : Option String) :
    NetworkAnalyzer :=
  if cid.isSome then
    match lookupA g.scammerNodes sid with
    | some n => setNode g sid
        { n with conversation_count := n.conversation_count + 1 }
    | none => g
  else g

/-- `NetworkAnalyzer.add_scammer`. -/
def add_scammer (g : NetworkAnalyzer) (scammer_id : String)
    (identifiers : List (String × List String))
    (conversation_id : Option String := none) : NetworkAnalyzer :=
  identifiers.foldl
    (fun g tv => tv.2.foldl (fun g v => registerValue g scammer_id tv.1 v) g)
    (bumpCount (ensureNode g scammer_id) scammer_id conversation_id)

/-- The BFS loop of `find_connected_scammers`, totalised by fuel (each step
pops one queue entry; the fuel passed by `find_connected_scammers` bounds the
number of pops on any graph its invariants admit). -/
def bfsPush (g : NetworkAnalyzer) (current : String) (depth : Nat)
    (visited' : List String) : List (String × Nat) :=
  match lookupA g.scammerNodes current with
  | some node =>
    (node.connections.filter (· ∉ visited')).map fun c => (c, depth + 1)
  | none => []

def bfsLoop (g : NetworkAnalyzer) (start : String) (maxDepth : Nat) :
    Nat → List (String × Nat) → List String → List String → List String
  | 0, _, _, connected => connected
  | _ + 1, [], _, connected => connected
  | fuel + 1, (current, depth) :: queue, visited, connected =>
    if current ∈ visited then bfsLoop g start maxDepth fuel queue visited connected
    else
      let visited' := visited ++ [current]
      let connected' :=
        if current ≠ start then connected ++ [current] else connected
      let queue' :=
        if depth < maxDepth then queue ++ bfsPush g current depth visited'
        else queue
      bfsLoop g start maxDepth fuel queue' visited' connected'

/-- Fuel bound for the BFS: `(n + 1)^2` pops cover any graph whose connection
lists are duplicate-free subsets of the node set. -/
def bfsFuel (g : NetworkAnalyzer) : Nat :=
  (g.scammerNodes.length + 1) * (g.scammerNodes.length + 1)

/-- `NetworkAnalyzer.find_connected_scammers`. -/
def find_connected_scammers (g : NetworkAnalyzer) (scammer_id : String)
    (max_depth : Nat := 2) : List String :=
  if hasKeyA g.scammerNodes scammer_id then
    bfsLoop g scammer_id max_depth (bfsFuel g) [(scammer_id, 0)] [] []
  else []

/-- Root chasing in the union-find parent map, totalised by fuel. The
source's `find` also performs path compression; compression mutates the
parent map but never changes the root returned, and `detect_clusters`
consumes only the roots. -/
def ufFind (parent : String → String) : Nat → String → String
  | 0, x => x
  | fuel + 1, x => if parent x = x then x else ufFind parent fuel (parent x)

/-- The `union` of `detect_clusters`: graft the root of `x` onto the root
of `y` when they differ. -/
def ufUnion (F : Nat) (parent : String → String) (x y : String) :
    String → String :=
  let px := ufFind parent F x
  let py := ufFind parent F y
  if px = py then parent else Function.update parent px py

/-- The union operations `detect_clusters` performs: every
`(scammer_id, connection)` pair with the connection registered. -/
def unionOps (g : NetworkAnalyzer) : List (String × String) :=
  g.scammerNodes.flatMap fun sn =>
    (sn.2.connections.filter fun c => hasKeyA g.scammerNodes c).map
      fun c => (sn.1, c)

/-- Fuel for root chasing: after `k` unions every chain has length at most
`k`, so `|unionOps| + 1` always suffices. -/
def clusterFuel (g : NetworkAnalyzer) : Nat := (unionOps g).length + 1

/-- The parent map after all unions (initially `parent = {sid: sid}`). -/
def finalParent (g : NetworkAnalyzer) : String → String :=
  (unionOps g).foldl (fun p ab => ufUnion (clusterFuel g) p ab.1 ab.2) id

/-- The union-find root assigned to a scammer id by `detect_clusters`. -/
def rootOf (g : NetworkAnalyzer) (x : String) : String :=
  ufFind (finalParent g) (clusterFuel g) x

/-- The `clusters_dict` grouping loop: append each scammer id to the member
list of its root, keyed in first-seen root order. -/
def groupFold (root : String → String) (ids : List String) :
    List (String × List String) :=
  ids.foldl
    (fun acc sid =>
      upsertA acc (root sid) (((lookupA acc (root sid)).getD []) ++ [sid])) []

/-- Stable insertion into a list sorted by decreasing length. -/
def insertBySize (x : List String) : List (List String) → List (List String)
  | [] => [x]
  | y :: t => if y.length < x.length then x :: y :: t else y :: insertBySize x t

/-- Python `clusters.sort(key=len, reverse=True)`. -/
def sortBySizeDesc (l : List (List String)) : List (List String) :=
  l.foldr insertBySize []

/-- `NetworkAnalyzer.detect_clusters`, as the member lists of the clusters it
returns (the cluster metadata — hashed cluster id, shared identifiers, risk
score — is derived per cluster and mentioned by no claim). -/
def detect_clusters (g : NetworkAnalyzer) (min_cluster_size : Nat := 2) :
    List (List String) :=
  let groups := groupFold (rootOf g) (nodeIds g)
  let clusters := (groups.map (·.2)).filter fun m =>
    min_cluster_size ≤ m.length
  sortBySizeDesc clusters

/-- One `add_scammer` call's arguments. -/
structure Registration where
  sid : String
  identifiers : List (String × List String)
  conversation_id : Option String := none

/-- The graph built by a sequence of registrations from a fresh analyzer. -/
def buildGraph (regs : List Registration) : NetworkAnalyzer :=
  regs.foldl (fun g r => add_scammer g r.sid r.identifiers r.conversation_id) {}

/-! ## Theorems: network analyzer.

The development culminates in three facts about `NetworkAnalyzer`: two actors
registered with a shared normalized identifier are BFS-connected, they land
in one cluster of `detect_clusters`, and the clusters (as member sets) do not
depend on the registration order. -/

theorem mem_insertNew {l : List String} {a x : String} :
    x ∈ insertNew l a ↔ x ∈ l ∨ x = a := by
  unfold insertNew
  split
  · next h => constructor
              · exact Or.inl
              · rintro (hx | rfl)
                · exact hx
                · exact h
  · simp

theorem insertNew_nodup {l : List String} (h : l.Nodup) (a : String) :
    (insertNew l a).Nodup := by
  unfold insertNew
  split
  · exact h
  · next ha =>
    rw [List.nodup_append]
    refine ⟨h, List.nodup_singleton a, ?_⟩
    intro x hx hxa
    simp only [List.mem_singleton] at hxa
    subst hxa
    exact ha hx

theorem lookupA_isSome_iff {α : Type} (l : List (String × α)) (k : String) :
    (lookupA l k).isSome = true ↔ k ∈ l.map (·.1) := by
  induction l with
  | nil => simp [lookupA]
  | cons h t ih =>
    obtain ⟨k', v⟩ := h
    by_cases hk : k' = k <;> simp [lookupA, hk, ih]
    exact fun h => (hk h.symm).elim

theorem lookupA_eq_some_mem {α : Type} {l : List (String × α)} {k : String}
    {v : α} (h : lookupA l k = some v) : (k, v) ∈ l := by
  induction l with
  | nil => simp [lookupA] at h
  | cons hd t ih =>
    obtain ⟨k', v'⟩ := hd
    simp only [lookupA] at h
    split at h
    · next heq =>
      injection h with hv
      exact List.mem_cons.mpr (Or.inl (by simp [← heq, ← hv]))
    · exact List.mem_cons_of_mem _ (ih h)

theorem lookupA_eq_of_mem_nodup {α : Type} {l : List (String × α)} {k : String}
    {v : α} (hn : (l.map (·.1)).Nodup) (h : (k, v) ∈ l) :
    lookupA l k = some v := by
  induction l with
  | nil => simp at h
  | cons hd t ih =>
    obtain ⟨k', v'⟩ := hd
    simp only [List.map_cons, List.nodup_cons] at hn
    rcases List.mem_cons.mp h with heq | ht
    · cases heq
      simp [lookupA]
    · have hk : k' ≠ k := by
        intro hkk
        subst hkk
        exact hn.1 (List.mem_map.mpr ⟨(k', v), ht, rfl⟩)
      simp only [lookupA, if_neg hk]
      exact ih hn.2 ht

theorem map_fst_upsertA_mem {α : Type} {l : List (String × α)} {k : String}
    (v : α) (h : k ∈ l.map (·.1)) :
    (upsertA l k v).map (·.1) = l.map (·.1) := by
  induction l with
  | nil => simp at h
  | cons hd t ih =>
    obtain ⟨k', v'⟩ := hd
    by_cases hk : k' = k
    · simp [upsertA, hk]
    · simp only [List.map_cons, List.mem_cons] at h
      rcases h with h | h
    
      · exact absurd h.symm hk
      · simp [upsertA, hk, ih h]

theorem map_fst_upsertA_not_mem {α : Type} {l : List (String × α)} {k : String}
    (v : α) (h : k ∉ l.map (·.1)) :
    (upsertA l k v).map (·.1) = l.map (·.1) ++ [k] := by
  induction l with
  | nil => simp [upsertA]
  | cons hd t ih =>
    obtain ⟨k', v'⟩ := hd
    simp only [List.map_cons, List.mem_cons] at h
    push_neg at h
    simp [upsertA, Ne.symm h.1, ih h.2]

/-! Observable effects of `setNode` and the id-index update. -/

theorem nodeIds_setNode_mem {g : NetworkAnalyzer} {sid : String}
    (n : NetworkNode) (h : sid ∈ nodeIds g) :
    nodeIds (setNode g sid n) = nodeIds g :=
  map_fst_upsertA_mem n h

theorem nodeIds_setNode_not_mem {g : NetworkAnalyzer} {sid : String}
    (n : NetworkNode) (h : sid ∉ nodeIds g) :
    nodeIds (setNode g sid n) = nodeIds g ++ [sid] :=
  map_fst_upsertA_not_mem n h

theorem usersOf_setNode (g : NetworkAnalyzer) (sid : String) (n : NetworkNode)
    (key : String) : usersOf (setNode g sid n) key = usersOf g key := rfl

theorem connsOf_setNode (g : NetworkAnalyzer) (sid : String) (n : NetworkNode)
    (u : String) :
    connsOf (setNode g sid n) u =
      if sid = u then n.connections else connsOf g u := by
  unfold connsOf setNode
  by_cases h : sid = u
  · subst h
    simp [lookupA_upsertA_self]
  · simp [h, lookupA_upsertA_ne g.scammerNodes sid u n h]

theorem connsOf_eq_of_lookup {g : NetworkAnalyzer} {sid : String}
    {n : NetworkNode} (h : lookupA g.scammerNodes sid = some n) :
    connsOf g sid = n.connections := by
  unfold connsOf
  rw [h]

theorem exists_lookup_of_mem_nodeIds {g : NetworkAnalyzer} {sid : String}
    (h : sid ∈ nodeIds g) : ∃ n, lookupA g.scammerNodes sid = some n := by
  have := (lookupA_isSome_iff g.scammerNodes sid).mpr h
  exact Option.isSome_iff_exists.mp this

theorem connsOf_addConnection {g : NetworkAnalyzer} {sid other : String}
    (hsid : sid ∈ nodeIds g) (hother : other ∈ nodeIds g) (hne : other ≠ sid)
    (u : String) :
    connsOf (addConnection g sid other) u =
      if u = sid then insertNew (connsOf g sid) other
      else if u = other then insertNew (connsOf g other) sid
      else connsOf g u := by
  obtain ⟨n, hn⟩ := exists_lookup_of_mem_nodeIds hsid
  unfold addConnection
  simp only [hn]
  have hg1conns : ∀ w, connsOf (setNode g sid
      { n with connections := insertNew n.connections other }) w =
      if sid = w then insertNew (connsOf g sid) other else connsOf g w := by
    intro w
    rw [connsOf_setNode, connsOf_eq_of_lookup hn]
  have hother1 : other ∈ nodeIds (setNode g sid
      { n with connections := insertNew n.connections other }) := by
    rw [nodeIds_setNode_mem _ hsid]; exact hother
  obtain ⟨n2, hn2⟩ := exists_lookup_of_mem_nodeIds hother1
  simp only [hn2]
  have hconn2 : n2.connections = connsOf g other := by
    have := connsOf_eq_of_lookup hn2
    rw [hg1conns other, if_neg (show ¬ sid = other from fun h => hne h.symm)]
      at this
    exact this.symm
  rw [connsOf_setNode, hg1conns]
  simp only [hconn2]
  by_cases h1 : u = sid
  · subst h1
    rw [if_neg hne, if_pos rfl, if_pos rfl]
  · by_cases h2 : u = other
    · subst h2
      rw [if_pos rfl, if_neg h1, if_pos rfl]
    · rw [if_neg (fun h => h2 h.symm), if_neg (fun h => h1 h.symm),
        if_neg h1, if_neg h2]

theorem nodeIds_addConnection {g : NetworkAnalyzer} {sid other : String}
    (hsid : sid ∈ nodeIds g) (hother : other ∈ nodeIds g) :
    nodeIds (addConnection g sid other) = nodeIds g := by
  obtain ⟨n, hn⟩ := exists_lookup_of_mem_nodeIds hsid
  unfold addConnection
  simp only [hn]
  have hother1 : other ∈ nodeIds (setNode g sid
      { n with connections := insertNew n.connections other }) := by
    rw [nodeIds_setNode_mem _ hsid]; exact hother
  obtain ⟨n2, hn2⟩ := exists_lookup_of_mem_nodeIds hother1
  simp only [hn2]
  rw [nodeIds_setNode_mem _ hother1, nodeIds_setNode_mem _ hsid]

theorem usersOf_addConnection (g : NetworkAnalyzer) (sid other key : String) :
    usersOf (addConnection g sid other) key = usersOf g key := by
  unfold addConnection
  rcases h1 : lookupA g.scammerNodes sid with _ | n <;> simp only [h1]
  · rcases h2 : lookupA g.scammerNodes other with _ | n2 <;> simp only [h2] <;> rfl
  · rcases h2 : lookupA (setNode g sid
        { n with connections := insertNew n.connections other }).scammerNodes
        other with _ | n2 <;> simp only [h2] <;> rfl

theorem connsOf_addConnection_mem {g : NetworkAnalyzer} {sid x : String}
    (hsid : sid ∈ nodeIds g) (hx : x ∈ nodeIds g) (hne : x ≠ sid)
    (u w : String) :
    w ∈ connsOf (addConnection g sid x) u ↔
      w ∈ connsOf g u ∨ (u = sid ∧ w = x) ∨ (u = x ∧ w = sid) := by
  rw [connsOf_addConnection hsid hx hne u]
  by_cases h1 : u = sid
  · subst h1
    rw [if_pos rfl, mem_insertNew]
    have hux : ¬ u = x := fun h => hne h.symm
    tauto
  · by_cases h2 : u = x
    · subst h2
      rw [if_neg h1, if_pos rfl, mem_insertNew]
      tauto
    · rw [if_neg h1, if_neg h2]
      tauto

theorem connsOf_addConnection_nodup {g : NetworkAnalyzer} {sid x : String}
    (hsid : sid ∈ nodeIds g) (hx : x ∈ nodeIds g) (hne : x ≠ sid)
    (h : ∀ u, (connsOf g u).Nodup) : ∀ u, (connsOf (addConnection g sid x) u).Nodup := by
  intro u
  rw [connsOf_addConnection hsid hx hne u]
  split
  · exact insertNew_nodup (h sid) x
  · split
    · exact insertNew_nodup (h x) sid
    · exact h u

theorem connectFold_spec (sid : String) (l : List String) :
    ∀ g : NetworkAnalyzer, sid ∈ nodeIds g → (∀ x ∈ l, x ∈ nodeIds g) →
    nodeIds (l.foldl
      (fun g other => if other ≠ sid then addConnection g sid other else g) g) =
      nodeIds g ∧
    (∀ key, usersOf (l.foldl
      (fun g other => if other ≠ sid then addConnection g sid other else g) g)
      key = usersOf g key) ∧
    (∀ u w, w ∈ connsOf (l.foldl
      (fun g other => if other ≠ sid then addConnection g sid other else g) g) u ↔
      (w ∈ connsOf g u ∨ (u = sid ∧ w ∈ l ∧ w ≠ sid) ∨
        (w = sid ∧ u ∈ l ∧ u ≠ sid))) ∧
    ((∀ u, (connsOf g u).Nodup) → ∀ u, (connsOf (l.foldl
      (fun g other => if other ≠ sid then addConnection g sid other else g) g)
      u).Nodup) := by
  induction l with
  | nil =>
    intro g hs _
    refine ⟨rfl, fun _ => rfl, ?_, fun h => h⟩
    simp
  | cons x t ih =>
    intro g hs hl
    rw [List.foldl_cons]
    by_cases hx : x = sid
    · rw [if_neg (by simp [hx])]
      obtain ⟨h1, h2, h3, h4⟩ := ih g hs fun y hy => hl y (List.mem_cons_of_mem _ hy)
      refine ⟨h1, h2, ?_, h4⟩
      intro u w
      rw [h3 u w]
      subst hx
      simp only [List.mem_cons]
      tauto
    · rw [if_pos hx]
      have hxg : x ∈ nodeIds g := hl x (List.mem_cons_self _ _)
      have hsg : sid ∈ nodeIds (addConnection g sid x) := by
        rw [nodeIds_addConnection hs hxg]; exact hs
      have hlg : ∀ y ∈ t, y ∈ nodeIds (addConnection g sid x) := by
        intro y hy
        rw [nodeIds_addConnection hs hxg]
        exact hl y (List.mem_cons_of_mem _ hy)
      obtain ⟨h1, h2, h3, h4⟩ := ih (addConnection g sid x) hsg hlg
      refine ⟨?_, ?_, ?_, ?_⟩
      · rw [h1, nodeIds_addConnection hs hxg]
      · intro key
        rw [h2 key, usersOf_addConnection]
      · intro u w
        rw [h3 u w]
        simp only [connsOf_addConnection_mem hs hxg hx, List.mem_cons]
        constructor
        · rintro ((h | ⟨hu, hw⟩ | ⟨hu, hw⟩) | ⟨hu, hw, hne'⟩ | ⟨hw, hu, hne'⟩)
          · exact Or.inl h
          · exact Or.inr (Or.inl ⟨hu, Or.inl hw, by rw [hw]; exact hx⟩)
          · exact Or.inr (Or.inr ⟨hw, Or.inl hu, by rw [hu]; exact hx⟩)
          · exact Or.inr (Or.inl ⟨hu, Or.inr hw, hne'⟩)
          · exact Or.inr (Or.inr ⟨hw, Or.inr hu, hne'⟩)
        · rintro (h | ⟨hu, (hw | hw), hne'⟩ | ⟨hw, (hu | hu), hne'⟩)
          · exact Or.inl (Or.inl h)
          · exact Or.inl (Or.inr (Or.inl ⟨hu, hw⟩))
          · exact Or.inr (Or.inl ⟨hu, hw, hne'⟩)
          · exact Or.inl (Or.inr (Or.inr ⟨hu, hw⟩))
          · exact Or.inr (Or.inr ⟨hw, hu, hne'⟩)
      · intro hnd
        exact h4 (connsOf_addConnection_nodup hs hxg hx hnd)

theorem registerTail_spec (g1 : NetworkAnalyzer) (sid id_key : String)
    (hsid : sid ∈ nodeIds g1)
    (husers : ∀ k u, u ∈ usersOf g1 k → u ∈ nodeIds g1) :
    nodeIds (registerTail g1 sid id_key) = nodeIds g1 ∧
    (∀ k, usersOf (registerTail g1 sid id_key) k =
      if k = id_key then insertNew (usersOf g1 k) sid else usersOf g1 k) ∧
    (∀ u w, w ∈ connsOf (registerTail g1 sid id_key) u ↔
      w ∈ connsOf g1 u ∨
        (u = sid ∧ w ∈ usersOf g1 id_key ∧ w ≠ sid) ∨
        (w = sid ∧ u ∈ usersOf g1 id_key ∧ u ≠ sid)) ∧
    ((∀ u, (connsOf g1 u).Nodup) →
      ∀ u, (connsOf (registerTail g1 sid id_key) u).Nodup) := by
  obtain ⟨h1, h2, h3, h4⟩ := connectFold_spec sid (usersOf g1 id_key) g1 hsid
    (fun x hx => husers id_key x hx)
  refine ⟨?_, ?_, ?_, ?_⟩
  · exact h1
  · intro k
    by_cases hk : k = id_key
    · subst hk
      show (lookupA (upsertA _ k (insertNew (usersOf g1 k) sid)) k).getD [] = _
      rw [lookupA_upsertA_self, if_pos rfl]
      rfl
    · show (lookupA (upsertA _ id_key (insertNew (usersOf g1 id_key) sid)) k).getD
        [] = _
      rw [lookupA_upsertA_ne _ _ _ _ (fun h => hk h.symm), if_neg hk]
      exact h2 k
  · intro u w
    exact h3 u w
  · intro hnd u
    exact h4 hnd u

theorem registerStep1_obs (g : NetworkAnalyzer) (sid ty v : String) :
    nodeIds (registerStep1 g sid ty v) = nodeIds g ∧
    (∀ k, usersOf (registerStep1 g sid ty v) k = usersOf g k) ∧
    (∀ u, connsOf (registerStep1 g sid ty v) u = connsOf g u) := by
  rcases hlk : lookupA g.scammerNodes sid with _ | n
  · simp only [registerStep1, hlk]
    exact ⟨trivial, fun _ => trivial, fun _ => trivial⟩
  · have hsid : sid ∈ nodeIds g :=
      List.mem_map_of_mem (·.1) (lookupA_eq_some_mem hlk)
    simp only [registerStep1, hlk]
    split
    · exact ⟨rfl, fun _ => rfl, fun _ => rfl⟩
    · refine ⟨nodeIds_setNode_mem _ hsid, fun _ => rfl, fun u => ?_⟩
      rw [connsOf_setNode]
      by_cases h : sid = u
      · subst h
        rw [if_pos rfl]
        exact (connsOf_eq_of_lookup hlk).symm
      · rw [if_neg h]

theorem registerValue_spec (g : NetworkAnalyzer) (sid ty v : String)
    (hsid : sid ∈ nodeIds g)
    (husers : ∀ k u, u ∈ usersOf g k → u ∈ nodeIds g) :
    nodeIds (registerValue g sid ty v) = nodeIds g ∧
    (∀ k, usersOf (registerValue g sid ty v) k =
      if k = ty ++ ":" ++ normalize_identifier ty v then
        insertNew (usersOf g k) sid
      else usersOf g k) ∧
    (∀ u w, w ∈ connsOf (registerValue g sid ty v) u ↔
      w ∈ connsOf g u ∨
        (u = sid ∧ w ∈ usersOf g (ty ++ ":" ++ normalize_identifier ty v) ∧
          w ≠ sid) ∨
        (w = sid ∧ u ∈ usersOf g (ty ++ ":" ++ normalize_identifier ty v) ∧
          u ≠ sid)) ∧
    ((∀ u, (connsOf g u).Nodup) →
      ∀ u, (connsOf (registerValue g sid ty v) u).Nodup) := by
  obtain ⟨hN, hU, hC⟩ := registerStep1_obs g sid ty v
  have hsid1 : sid ∈ nodeIds (registerStep1 g sid ty v) := by
    rw [hN]; exact hsid
  have husers1 : ∀ k u, u ∈ usersOf (registerStep1 g sid ty v) k →
      u ∈ nodeIds (registerStep1 g sid ty v) := by
    intro k u hu
    rw [hN]
    exact husers k u (by rw [hU k] at hu; exact hu)
  obtain ⟨t1, t2, t3, t4⟩ := registerTail_spec (registerStep1 g sid ty v) sid
    (ty ++ ":" ++ normalize_identifier ty v) hsid1 husers1
  unfold registerValue
  refine ⟨?_, ?_, ?_, ?_⟩
  · rw [t1, hN]
  · intro k
    simp only [t2 k, hU]
  · intro u w
    rw [t3 u w, hC u, hU (ty ++ ":" ++ normalize_identifier ty v)]
  · intro hnd u
    refine t4 ?_ u
    intro x
    rw [hC x]
    exact hnd x

/-- Well-formedness of the identity graph: registered ids are unique, every
identifier user is registered, connection sets are duplicate-free, and two
actors are connected exactly when they are distinct and share a normalized
identifier key. -/
def NetWF (g : NetworkAnalyzer) : Prop :=
  (nodeIds g).Nodup ∧
  (∀ k u, u ∈ usersOf g k → u ∈ nodeIds g) ∧
  (∀ u, (connsOf g u).Nodup) ∧
  (∀ u w, w ∈ connsOf g u ↔
    u ≠ w ∧ ∃ k, u ∈ usersOf g k ∧ w ∈ usersOf g k)

/-- The normalized identifier keys an identifier dict gives rise to. -/
def identKeys (idents : List (String × List String)) : List String :=
  idents.flatMap fun tv =>
    tv.2.map fun v => tv.1 ++ ":" ++ normalize_identifier tv.1 v

/-- The normalized identifier keys of one registration. -/
def regKeys (r : Registration) : List String := identKeys r.identifiers

/-- Membership relation of a list of pairs, as a binary relation. -/
def relOf (ops : List (String × String)) (x y : String) : Prop := (x, y) ∈ ops

theorem NetWF_empty : NetWF {} := by
  refine ⟨List.nodup_nil, ?_, ?_, ?_⟩
  · intro k u hu
    simp [usersOf, lookupA] at hu
  · intro u
    simp [connsOf, lookupA]
  · intro u w
    simp [connsOf, usersOf, lookupA]

theorem NetWF_congr {g g' : NetworkAnalyzer}
    (hN : nodeIds g' = nodeIds g)
    (hU : ∀ k, usersOf g' k = usersOf g k)
    (hC : ∀ u, connsOf g' u = connsOf g u)
    (hwf : NetWF g) : NetWF g' := by
  unfold NetWF at hwf ⊢
  simp only [hN, hU, hC]
  exact hwf

theorem connsOf_not_mem {g : NetworkAnalyzer} {sid : String}
    (h : sid ∉ nodeIds g) : connsOf g sid = [] := by
  unfold connsOf
  rcases hlk : lookupA g.scammerNodes sid with _ | n
  · rfl
  · exact absurd ((lookupA_isSome_iff g.scammerNodes sid).mp (by rw [hlk]; rfl)) h

theorem setNode_fresh_NetWF {g : NetworkAnalyzer} {sid : String}
    (h : sid ∉ nodeIds g) (hwf : NetWF g) :
    NetWF (setNode g sid { scammer_id := sid }) ∧
    nodeIds (setNode g sid { scammer_id := sid }) = nodeIds g ++ [sid] := by
  obtain ⟨hnd, husers, hcnd, hiff⟩ := hwf
  have hN : nodeIds (setNode g sid { scammer_id := sid }) = nodeIds g ++ [sid] :=
    nodeIds_setNode_not_mem _ h
  have hC : ∀ u, connsOf (setNode g sid { scammer_id := sid }) u = connsOf g u := by
    intro u
    rw [connsOf_setNode]
    by_cases hu : sid = u
    · subst hu
      rw [if_pos rfl, connsOf_not_mem h]
    · rw [if_neg hu]
  refine ⟨⟨?_, ?_, ?_, ?_⟩, hN⟩
  · rw [hN]
    exact hnd.append (List.nodup_singleton sid)
      (fun x hx hx' => h (List.mem_singleton.mp hx' ▸ hx))
  · intro k u hu
    rw [hN]
    exact List.mem_append_left _ (husers k u hu)
  · intro u
    rw [hC u]
    exact hcnd u
  · intro u w
    rw [hC u]
    exact hiff u w

theorem registerValue_users_mem {g : NetworkAnalyzer} {sid : String}
    (ty v : String) (hsid : sid ∈ nodeIds g)
    (husers : ∀ k u, u ∈ usersOf g k → u ∈ nodeIds g) (k u : String) :
    u ∈ usersOf (registerValue g sid ty v) k ↔
      u ∈ usersOf g k ∨
        (u = sid ∧ k = ty ++ ":" ++ normalize_identifier ty v) := by
  obtain ⟨-, hU, -, -⟩ := registerValue_spec g sid ty v hsid husers
  rw [hU k]
  by_cases hk : k = ty ++ ":" ++ normalize_identifier ty v
  · rw [if_pos hk, mem_insertNew]
    constructor
    · rintro (h | h)
      · exact Or.inl h
      · exact Or.inr ⟨h, hk⟩
    · rintro (h | ⟨h, -⟩)
      · exact Or.inl h
      · exact Or.inr h
  · rw [if_neg hk]
    constructor
    · exact Or.inl
    · rintro (h | ⟨-, h⟩)
      · exact h
      · exact absurd h hk

theorem registerValue_NetWF {g : NetworkAnalyzer} {sid : String} (ty v : String)
    (hsid : sid ∈ nodeIds g) (hwf : NetWF g) :
    NetWF (registerValue g sid ty v) ∧
    nodeIds (registerValue g sid ty v) = nodeIds g := by
  obtain ⟨hnd, husers, hcnd, hiff⟩ := hwf
  obtain ⟨hN, hU, hC, hD⟩ := registerValue_spec g sid ty v hsid husers
  have husers' : ∀ k u, u ∈ usersOf (registerValue g sid ty v) k →
      u ∈ nodeIds (registerValue g sid ty v) := by
    intro k u hu
    rw [hN]
    rw [hU k] at hu
    by_cases hk : k = ty ++ ":" ++ normalize_identifier ty v
    · rw [if_pos hk] at hu
      rcases mem_insertNew.mp hu with h | h
      · exact husers k u h
      · exact h ▸ hsid
    · rw [if_neg hk] at hu
      exact husers k u hu
  refine ⟨⟨by rw [hN]; exact hnd, husers', hD hcnd, ?_⟩, hN⟩
  intro u w
  rw [hC u w]
  constructor
  · rintro (hold | ⟨rfl, hwK, hwne⟩ | ⟨rfl, huK, hune⟩)
    · obtain ⟨hne, k, hu, hw⟩ := (hiff u w).mp hold
      refine ⟨hne, k, ?_, ?_⟩
      · rw [hU k]
        split
        · exact mem_insertNew.mpr (Or.inl hu)
        · exact hu
      · rw [hU k]
        split
        · exact mem_insertNew.mpr (Or.inl hw)
        · exact hw
    · refine ⟨fun h => hwne h.symm, ty ++ ":" ++ normalize_identifier ty v, ?_, ?_⟩
      · rw [hU _, if_pos rfl]
        exact mem_insertNew.mpr (Or.inr rfl)
      · rw [hU _, if_pos rfl]
        exact mem_insertNew.mpr (Or.inl hwK)
    · refine ⟨hune, ty ++ ":" ++ normalize_identifier ty v, ?_, ?_⟩
      · rw [hU _, if_pos rfl]
        exact mem_insertNew.mpr (Or.inl huK)
      · rw [hU _, if_pos rfl]
        exact mem_insertNew.mpr (Or.inr rfl)
  · rintro ⟨hne, k, hu, hw⟩
    rw [hU k] at hu hw
    by_cases hk : k = ty ++ ":" ++ normalize_identifier ty v
    · rw [if_pos hk] at hu hw
      rcases mem_insertNew.mp hu with hu' | hu' <;>
        rcases mem_insertNew.mp hw with hw' | hw'
      · exact Or.inl ((hiff u w).mpr ⟨hne, k, hu', hw'⟩)
      · exact Or.inr (Or.inr ⟨hw', hk ▸ hu', fun h => hne (h.trans hw'.symm)⟩)
      · exact Or.inr (Or.inl ⟨hu', hk ▸ hw', fun h => hne (hu'.trans h.symm)⟩)
      · exact absurd (hu'.trans hw'.symm) hne
    · rw [if_neg hk] at hu hw
      exact Or.inl ((hiff u w).mpr ⟨hne, k, hu, hw⟩)

theorem registerValues_fold (ty : String) (vs : List String) :
    ∀ (g : NetworkAnalyzer) (sid : String), sid ∈ nodeIds g → NetWF g →
    NetWF (vs.foldl (fun g v => registerValue g sid ty v) g) ∧
    nodeIds (vs.foldl (fun g v => registerValue g sid ty v) g) = nodeIds g ∧
    (∀ k u, u ∈ usersOf (vs.foldl (fun g v => registerValue g sid ty v) g) k ↔
      u ∈ usersOf g k ∨
        (u = sid ∧ k ∈ vs.map fun v => ty ++ ":" ++ normalize_identifier ty v)) := by
  induction vs with
  | nil =>
    intro g sid hsid hwf
    exact ⟨hwf, rfl, by simp⟩
  | cons v vs ih =>
    intro g sid hsid hwf
    simp only [List.foldl_cons]
    obtain ⟨hwf', hN'⟩ := registerValue_NetWF ty v hsid hwf
    have hsid' : sid ∈ nodeIds (registerValue g sid ty v) := by
      rw [hN']; exact hsid
    obtain ⟨hwfF, hNF, hUF⟩ := ih (registerValue g sid ty v) sid hsid' hwf'
    refine ⟨hwfF, by rw [hNF, hN'], ?_⟩
    intro k u
    rw [hUF k u, registerValue_users_mem ty v hsid hwf.2.1 k u]
    simp only [List.map_cons, List.mem_cons]
    tauto

theorem registerIdents_fold (idents : List (String × List String)) :
    ∀ (g : NetworkAnalyzer) (sid : String), sid ∈ nodeIds g → NetWF g →
    NetWF (idents.foldl
      (fun g tv => tv.2.foldl (fun g v => registerValue g sid tv.1 v) g) g) ∧
    nodeIds (idents.foldl
      (fun g tv => tv.2.foldl (fun g v => registerValue g sid tv.1 v) g) g) =
      nodeIds g ∧
    (∀ k u, u ∈ usersOf (idents.foldl
        (fun g tv => tv.2.foldl (fun g v => registerValue g sid tv.1 v) g) g) k ↔
      u ∈ usersOf g k ∨ (u = sid ∧ k ∈ identKeys idents)) := by
  induction idents with
  | nil =>
    intro g sid hsid hwf
    exact ⟨hwf, rfl, by simp [identKeys]⟩
  | cons tv rest ih =>
    intro g sid hsid hwf
    simp only [List.foldl_cons]
    obtain ⟨hwf', hN', hU'⟩ := registerValues_fold tv.1 tv.2 g sid hsid hwf
    have hsid' : sid ∈ nodeIds
        (tv.2.foldl (fun g v => registerValue g sid tv.1 v) g) := by
      rw [hN']; exact hsid
    obtain ⟨hwfF, hNF, hUF⟩ :=
      ih (tv.2.foldl (fun g v => registerValue g sid tv.1 v) g) sid hsid' hwf'
    refine ⟨hwfF, by rw [hNF, hN'], ?_⟩
    intro k u
    rw [hUF k u, hU' k u]
    simp only [identKeys, List.flatMap_cons, List.mem_append, List.mem_flatMap]
    constructor
    · rintro ((h | ⟨rfl, h⟩) | ⟨rfl, tv', htv', h⟩)
      · exact Or.inl h
      · exact Or.inr ⟨rfl, Or.inl h⟩
      · exact Or.inr ⟨rfl, Or.inr ⟨tv', htv', h⟩⟩
    · rintro (h | ⟨rfl, h | ⟨tv', htv', h⟩⟩)
      · exact Or.inl (Or.inl h)
      · exact Or.inl (Or.inr ⟨rfl, h⟩)
      · exact Or.inr ⟨rfl, tv', htv', h⟩

theorem ensureNode_spec (g : NetworkAnalyzer) (sid : String) (hwf : NetWF g) :
    NetWF (ensureNode g sid) ∧
    (∀ s, s ∈ nodeIds (ensureNode g sid) ↔ s ∈ nodeIds g ∨ s = sid) ∧
    (∀ k, usersOf (ensureNode g sid) k = usersOf g k) ∧
    sid ∈ nodeIds (ensureNode g sid) := by
  unfold ensureNode
  by_cases hk : hasKeyA g.scammerNodes sid
  · rw [if_pos hk]
    have hsid : sid ∈ nodeIds g :=
      (lookupA_isSome_iff g.scammerNodes sid).mp hk
    refine ⟨hwf, ?_, fun _ => rfl, hsid⟩
    intro s
    constructor
    · exact Or.inl
    · rintro (h | rfl)
      · exact h
      · exact hsid
  · rw [if_neg hk]
    have hsid : sid ∉ nodeIds g := fun h =>
      hk ((lookupA_isSome_iff g.scammerNodes sid).mpr h)
    obtain ⟨hwf', hN'⟩ := setNode_fresh_NetWF hsid hwf
    refine ⟨hwf', ?_, fun _ => rfl, ?_⟩
    · intro s
      rw [hN', List.mem_append, List.mem_singleton]
    · rw [hN']
      exact List.mem_append_right _ (List.mem_singleton.mpr rfl)

theorem bumpCount_spec (g : NetworkAnalyzer) (sid : String) (cid : Option String) :
    nodeIds (bumpCount g sid cid) = nodeIds g ∧
    (∀ k, usersOf (bumpCount g sid cid) k = usersOf g k) ∧
    (∀ u, connsOf (bumpCount g sid cid) u = connsOf g u) := by
  unfold bumpCount
  split
  · rcases hlk : lookupA g.scammerNodes sid with _ | n
    · exact ⟨rfl, fun _ => rfl, fun _ => rfl⟩
    · have hsid : sid ∈ nodeIds g :=
        (lookupA_isSome_iff g.scammerNodes sid).mp (by rw [hlk]; rfl)
      refine ⟨nodeIds_setNode_mem _ hsid, fun _ => rfl, ?_⟩
      intro u
      rw [connsOf_setNode]
      by_cases h : sid = u
      · subst h
        rw [if_pos rfl]
        exact (connsOf_eq_of_lookup hlk).symm
      · rw [if_neg h]
  · exact ⟨rfl, fun _ => rfl, fun _ => rfl⟩

theorem add_scammer_NetWF (g : NetworkAnalyzer) (sid : String)
    (idents : List (String × List String)) (cid : Option String)
    (hwf : NetWF g) :
    NetWF (add_scammer g sid idents cid) ∧
    (∀ s, s ∈ nodeIds (add_scammer g sid idents cid) ↔
      s ∈ nodeIds g ∨ s = sid) ∧
    (∀ k u, u ∈ usersOf (add_scammer g sid idents cid) k ↔
      u ∈ usersOf g k ∨ (u = sid ∧ k ∈ identKeys idents)) := by
  obtain ⟨hwf1, hmem1, hU1, hsid1⟩ := ensureNode_spec g sid hwf
  obtain ⟨hN2, hU2, hC2⟩ := bumpCount_spec (ensureNode g sid) sid cid
  have hwf2 : NetWF (bumpCount (ensureNode g sid) sid cid) :=
    NetWF_congr hN2 hU2 hC2 hwf1
  have hsid2 : sid ∈ nodeIds (bumpCount (ensureNode g sid) sid cid) := by
    rw [hN2]; exact hsid1
  obtain ⟨hwfF, hNF, hUF⟩ :=
    registerIdents_fold idents (bumpCount (ensureNode g sid) sid cid) sid
      hsid2 hwf2
  refine ⟨hwfF, ?_, ?_⟩
  · intro s
    show s ∈ nodeIds (idents.foldl _ _) ↔ _
    rw [hNF, hN2]
    exact hmem1 s
  · intro k u
    show u ∈ usersOf (idents.foldl _ _) k ↔ _
    rw [hUF k u, hU2 k, hU1 k]

theorem buildGraph_fold (regs : List Registration) :
    ∀ g : NetworkAnalyzer, NetWF g →
    NetWF (regs.foldl
      (fun g r => add_scammer g r.sid r.identifiers r.conversation_id) g) ∧
    (∀ s, s ∈ nodeIds (regs.foldl
        (fun g r => add_scammer g r.sid r.identifiers r.conversation_id) g) ↔
      s ∈ nodeIds g ∨ ∃ r ∈ regs, r.sid = s) ∧
    (∀ k u, u ∈ usersOf (regs.foldl
        (fun g r => add_scammer g r.sid r.identifiers r.conversation_id) g) k ↔
      u ∈ usersOf g k ∨ ∃ r ∈ regs, r.sid = u ∧ k ∈ regKeys r) := by
  induction regs with
  | nil =>
    intro g hwf
    exact ⟨hwf, by simp, by simp⟩
  | cons r rest ih =>
    intro g hwf
    simp only [List.foldl_cons]
    obtain ⟨hwf1, hmem1, husers1⟩ :=
      add_scammer_NetWF g r.sid r.identifiers r.conversation_id hwf
    obtain ⟨hwfF, hmemF, husersF⟩ :=
      ih (add_scammer g r.sid r.identifiers r.conversation_id) hwf1
    refine ⟨hwfF, ?_, ?_⟩
    · intro s
      rw [hmemF s, hmem1 s]
      simp only [List.mem_cons]
      constructor
      · rintro ((h | rfl) | ⟨r', hr', rfl⟩)
        · exact Or.inl h
        · exact Or.inr ⟨r, Or.inl rfl, rfl⟩
        · exact Or.inr ⟨r', Or.inr hr', rfl⟩
      · rintro (h | ⟨r', rfl | hr', rfl⟩)
        · exact Or.inl (Or.inl h)
        · exact Or.inl (Or.inr rfl)
        · exact Or.inr ⟨r', hr', rfl⟩
    · intro k u
      rw [husersF k u, husers1 k u]
      simp only [List.mem_cons]
      constructor
      · rintro ((h | ⟨rfl, hk⟩) | ⟨r', hr', rfl, hk⟩)
        · exact Or.inl h
        · exact Or.inr ⟨r, Or.inl rfl, rfl, hk⟩
        · exact Or.inr ⟨r', Or.inr hr', rfl, hk⟩
      · rintro (h | ⟨r', rfl | hr', rfl, hk⟩)
        · exact Or.inl (Or.inl h)
        · exact Or.inl (Or.inr ⟨rfl, hk⟩)
        · exact Or.inr ⟨r', hr', rfl, hk⟩

theorem buildGraph_spec (regs : List Registration) :
    NetWF (buildGraph regs) ∧
    (∀ s, s ∈ nodeIds (buildGraph regs) ↔ ∃ r ∈ regs, r.sid = s) ∧
    (∀ k u, u ∈ usersOf (buildGraph regs) k ↔
      ∃ r ∈ regs, r.sid = u ∧ k ∈ regKeys r) := by
  obtain ⟨hwf, hmem, husers⟩ := buildGraph_fold regs {} NetWF_empty
  refine ⟨hwf, ?_, ?_⟩
  · intro s
    show s ∈ nodeIds (regs.foldl _ _) ↔ _
    rw [hmem s]
    simp [nodeIds]
  · intro k u
    show u ∈ usersOf (regs.foldl _ _) k ↔ _
    rw [husers k u]
    simp [usersOf, lookupA]

theorem bfsPush_sub {g : NetworkAnalyzer}
    (hconn_sub : ∀ u w, w ∈ connsOf g u → w ∈ nodeIds g)
    (c : String) (d : Nat) (vis : List String) :
    ∀ qd, qd ∈ bfsPush g c d vis → qd.1 ∈ nodeIds g := by
  intro qd hqd
  unfold bfsPush at hqd
  rcases hlk : lookupA g.scammerNodes c with _ | node
  · rw [hlk] at hqd
    simp at hqd
  · rw [hlk] at hqd
    obtain ⟨w, hw, rfl⟩ := List.mem_map.mp hqd
    exact hconn_sub c w (by
      rw [connsOf_eq_of_lookup hlk]
      exact List.mem_of_mem_filter hw)

theorem bfsPush_length_le {g : NetworkAnalyzer}
    (hconn_sub : ∀ u w, w ∈ connsOf g u → w ∈ nodeIds g)
    (hcnd : ∀ u, (connsOf g u).Nodup)
    (c : String) (d : Nat) (vis : List String) :
    (bfsPush g c d vis).length ≤ g.scammerNodes.length := by
  unfold bfsPush
  rcases hlk : lookupA g.scammerNodes c with _ | node
  · simp
  · rw [List.length_map]
    refine le_trans (List.length_filter_le _ _) ?_
    have hnd2 : node.connections.Nodup := by
      have h := hcnd c
      rwa [connsOf_eq_of_lookup hlk] at h
    have hsub2 : node.connections ⊆ nodeIds g := by
      intro w hw
      exact hconn_sub c w (by rw [connsOf_eq_of_lookup hlk]; exact hw)
    have h := (hnd2.subperm hsub2).length_le
    rwa [nodeIds, List.length_map] at h

theorem bfsLoop_mono (g : NetworkAnalyzer) (start : String) (md : Nat) :
    ∀ (fuel : Nat) (queue : List (String × Nat))
      (visited connected : List String) (x : String),
      x ∈ connected → x ∈ bfsLoop g start md fuel queue visited connected := by
  intro fuel
  induction fuel with
  | zero =>
    intro queue visited connected x hx
    exact hx
  | succ fuel ih =>
    intro queue visited connected x hx
    cases queue with
    | nil => exact hx
    | cons cd rest =>
      obtain ⟨c, d⟩ := cd
      by_cases hc : c ∈ visited
      · simp only [bfsLoop]
        rw [if_pos hc]
        exact ih rest visited connected x hx
      · simp only [bfsLoop]
        rw [if_neg hc]
        apply ih
        split
        · exact List.mem_append_left _ hx
        · exact hx

theorem bfsLoop_complete (g : NetworkAnalyzer) (start : String) (md : Nat)
    (hconn_sub : ∀ u w, w ∈ connsOf g u → w ∈ nodeIds g)
    (hcnd : ∀ u, (connsOf g u).Nodup) :
    ∀ (fuel : Nat) (queue : List (String × Nat)) (visited connected : List String),
    (∀ qd, qd ∈ queue → qd.1 ∈ nodeIds g) →
    (∀ x, x ∈ visited → x ≠ start → x ∈ connected) →
    queue.length + (g.scammerNodes.length + 1) *
      ((nodeIds g).toFinset \ visited.toFinset).card ≤ fuel →
    ∀ q d, (q, d) ∈ queue → q ≠ start →
      q ∈ bfsLoop g start md fuel queue visited connected := by
  intro fuel
  induction fuel with
  | zero =>
    intro queue visited connected hqsub hvis hfuel q d hq hqs
    cases queue with
    | nil => simp at hq
    | cons cd rest =>
      simp only [List.length_cons] at hfuel
      omega
  | succ fuel ih =>
    intro queue visited connected hqsub hvis hfuel q d hq hqs
    cases queue with
    | nil => simp at hq
    | cons cd rest =>
      obtain ⟨c, dc⟩ := cd
      simp only [List.length_cons] at hfuel
      by_cases hc : c ∈ visited
      · simp only [bfsLoop]
        rw [if_pos hc]
        rcases List.mem_cons.mp hq with heq | hmem
        · have hqc : q = c := congrArg Prod.fst heq
          subst hqc
          exact bfsLoop_mono g start md fuel rest visited connected q
            (hvis q hc hqs)
        · exact ih rest visited connected
            (fun qd hqd => hqsub qd (List.mem_cons_of_mem _ hqd)) hvis
            (by omega) q d hmem hqs
      · simp only [bfsLoop]
        rw [if_neg hc]
        have hcnodeIds : c ∈ nodeIds g := hqsub (c, dc) (List.mem_cons_self _ _)
        have hcV : c ∈ (nodeIds g).toFinset \ visited.toFinset :=
          Finset.mem_sdiff.mpr ⟨List.mem_toFinset.mpr hcnodeIds,
            fun h => hc (List.mem_toFinset.mp h)⟩
        have hfinset : (visited ++ [c]).toFinset = insert c visited.toFinset := by
          rw [List.toFinset_append, Finset.union_comm]
          rfl
        have hcard : ((nodeIds g).toFinset \ (visited ++ [c]).toFinset).card + 1 =
            ((nodeIds g).toFinset \ visited.toFinset).card := by
          rw [hfinset, Finset.sdiff_insert]
          exact Finset.card_erase_add_one hcV
        have hvis' : ∀ x, x ∈ visited ++ [c] → x ≠ start →
            x ∈ (if c ≠ start then connected ++ [c] else connected) := by
          intro x hx hxs
          rcases List.mem_append.mp hx with hx | hx
          · split
            · exact List.mem_append_left _ (hvis x hx hxs)
            · exact hvis x hx hxs
          · rw [List.mem_singleton] at hx
            subst hx
            rw [if_pos hxs]
            exact List.mem_append_right _ (List.mem_singleton.mpr rfl)
        rcases List.mem_cons.mp hq with heq | hmem
        · have hqc : q = c := congrArg Prod.fst heq
          subst hqc
          refine bfsLoop_mono g start md fuel _ _ _ q ?_
          rw [if_pos hqs]
          exact List.mem_append_right _ (List.mem_singleton.mpr rfl)
        · by_cases hd : dc < md
          · rw [if_pos hd]
            have hmul : (g.scammerNodes.length + 1) *
                (((nodeIds g).toFinset \ (visited ++ [c]).toFinset).card + 1) =
                (g.scammerNodes.length + 1) *
                  ((nodeIds g).toFinset \ (visited ++ [c]).toFinset).card +
                  (g.scammerNodes.length + 1) := Nat.mul_succ _ _
            have hpl := bfsPush_length_le hconn_sub hcnd c dc (visited ++ [c])
            refine ih (rest ++ bfsPush g c dc (visited ++ [c])) (visited ++ [c])
              (if c ≠ start then connected ++ [c] else connected) ?_ hvis' ?_ q d
              (List.mem_append_left _ hmem) hqs
            · intro qd hqd
              rcases List.mem_append.mp hqd with h | h
              · exact hqsub qd (List.mem_cons_of_mem _ h)
              · exact bfsPush_sub hconn_sub c dc (visited ++ [c]) qd h
            · rw [List.length_append]
              rw [← hcard, hmul] at hfuel
              omega
          · rw [if_neg hd]
            refine ih rest (visited ++ [c])
              (if c ≠ start then connected ++ [c] else connected)
              (fun qd hqd => hqsub qd (List.mem_cons_of_mem _ hqd)) hvis' ?_ q d
              hmem hqs
            have hmul : (g.scammerNodes.length + 1) *
                (((nodeIds g).toFinset \ (visited ++ [c]).toFinset).card + 1) =
                (g.scammerNodes.length + 1) *
                  ((nodeIds g).toFinset \ (visited ++ [c]).toFinset).card +
                  (g.scammerNodes.length + 1) := Nat.mul_succ _ _
            rw [← hcard, hmul] at hfuel
            omega

theorem find_connected_adjacent {g : NetworkAnalyzer} {A B : String} {md : Nat}
    (hconn_sub : ∀ u w, w ∈ connsOf g u → w ∈ nodeIds g)
    (hcnd : ∀ u, (connsOf g u).Nodup)
    (hA : A ∈ nodeIds g) (hB : B ∈ connsOf g A) (hBA : B ≠ A) (hmd : 0 < md) :
    B ∈ find_connected_scammers g A md := by
  unfold find_connected_scammers
  rw [if_pos (show hasKeyA g.scammerNodes A = true from
    (lookupA_isSome_iff _ _).mpr hA)]
  obtain ⟨n, hn⟩ : ∃ n, bfsFuel g = n + 1 :=
    ⟨g.scammerNodes.length * (g.scammerNodes.length + 1) + g.scammerNodes.length,
      by unfold bfsFuel; ring⟩
  rw [hn]
  simp only [bfsLoop]
  rw [if_neg (List.not_mem_nil A)]
  rw [if_neg (show ¬(A ≠ A) from fun h => h rfl)]
  rw [if_pos hmd]
  obtain ⟨node, hlk⟩ := exists_lookup_of_mem_nodeIds hA
  refine bfsLoop_complete g A md hconn_sub hcnd n _ _ _ ?_ ?_ ?_ B 1 ?_ hBA
  · intro qd hqd
    simp only [List.nil_append] at hqd
    exact bfsPush_sub hconn_sub A 0 ([] ++ [A]) qd hqd
  · intro x hx hxs
    simp only [List.nil_append, List.mem_singleton] at hx
    exact absurd hx hxs
  · simp only [List.nil_append]
    have h1 := bfsPush_length_le hconn_sub hcnd A 0 [A]
    have h2 : ((nodeIds g).toFinset \ ([A] : List String).toFinset).card ≤
        g.scammerNodes.length := by
      refine le_trans (Finset.card_le_card Finset.sdiff_subset) ?_
      refine le_trans (List.toFinset_card_le _) ?_
      rw [nodeIds, List.length_map]
    have h3 : (g.scammerNodes.length + 1) *
        ((nodeIds g).toFinset \ ([A] : List String).toFinset).card ≤
        (g.scammerNodes.length + 1) * g.scammerNodes.length :=
      Nat.mul_le_mul_left _ h2
    have h4 : (g.scammerNodes.length + 1) * g.scammerNodes.length =
        g.scammerNodes.length * g.scammerNodes.length + g.scammerNodes.length :=
      by ring
    have h5 : bfsFuel g =
        g.scammerNodes.length * g.scammerNodes.length +
          2 * g.scammerNodes.length + 1 := by
      unfold bfsFuel; ring
    rw [h5] at hn
    omega
  · simp only [List.nil_append]
    unfold bfsPush
    simp only [hlk]
    refine List.mem_map.mpr ⟨B, ?_, rfl⟩
    rw [List.mem_filter]
    constructor
    · rw [connsOf_eq_of_lookup hlk] at hB
      exact hB
    · simp [hBA]

/-- Iterating a parent map `k` times. -/
def pIter (p : String → String) : Nat → String → String
  | 0, x => x
  | k + 1, x => pIter p k (p x)

/-- Every chain of `p` reaches a fixed point within `k` steps. -/
def UFBound (p : String → String) (k : Nat) : Prop :=
  ∀ x, p (pIter p k x) = pIter p k x

theorem pIter_succ_right (p : String → String) :
    ∀ (k : Nat) (x : String), pIter p (k + 1) x = p (pIter p k x) := by
  intro k
  induction k with
  | zero => intro x; rfl
  | succ k ih =>
    intro x
    show pIter p (k + 1) (p x) = p (pIter p (k + 1) x)
    rw [ih (p x)]
    rfl

theorem pIter_fix {p : String → String} {y : String} (h : p y = y) :
    ∀ k, pIter p k y = y := by
  intro k
  induction k with
  | zero => rfl
  | succ k ih =>
    show pIter p k (p y) = y
    rw [h]
    exact ih

theorem pIter_fix_persist {p : String → String} {j : Nat} {x : String}
    (h : p (pIter p j x) = pIter p j x) :
    ∀ m, j ≤ m → pIter p m x = pIter p j x := by
  intro m
  induction m with
  | zero =>
    intro hm
    have : j = 0 := Nat.le_zero.mp hm
    rw [this]
  | succ m ih =>
    intro hm
    rcases Nat.lt_or_ge j (m + 1) with hlt | hge
    · have hjm : j ≤ m := Nat.lt_succ_iff.mp hlt
      rw [pIter_succ_right, ih hjm, h]
    · have : j = m + 1 := Nat.le_antisymm hm hge
      rw [this]

theorem ufFind_eq {p : String → String} :
    ∀ (k : Nat) (x : String) (f : Nat),
      p (pIter p k x) = pIter p k x → k ≤ f →
      ufFind p f x = pIter p k x := by
  intro k
  induction k with
  | zero =>
    intro x f hfix _
    cases f with
    | zero => rfl
    | succ f =>
      show (if p x = x then x else ufFind p f (p x)) = x
      rw [if_pos (show p x = x from hfix)]
  | succ k ih =>
    intro x f hfix hkf
    cases f with
    | zero => omega
    | succ f =>
      show (if p x = x then x else ufFind p f (p x)) = _
      by_cases hx : p x = x
      · rw [if_pos hx]
        exact (pIter_fix hx (k + 1)).symm
      · rw [if_neg hx]
        exact ih (p x) f hfix (Nat.succ_le_succ_iff.mp hkf)

theorem UFBound_mono {p : String → String} {k m : Nat} (h : UFBound p k)
    (hkm : k ≤ m) : UFBound p m := by
  intro x
  rw [pIter_fix_persist (h x) m hkm]
  exact h x

theorem pIter_congr_avoid {p p' : String → String} {px : String}
    (hpp : ∀ z, z ≠ px → p' z = p z) :
    ∀ (j : Nat) (x : String), (∀ i, i < j → pIter p i x ≠ px) →
      pIter p' j x = pIter p j x := by
  intro j
  induction j with
  | zero => intro x _; rfl
  | succ j ih =>
    intro x havoid
    rw [pIter_succ_right, pIter_succ_right]
    rw [ih x (fun i hi => havoid i (Nat.lt_succ_of_lt hi))]
    exact hpp _ (havoid j (Nat.lt_succ_self j))

theorem ufUnion_inv (F : Nat) (p : String → String) (k : Nat) (a b : String)
    (hk : UFBound p k) (hkF : k ≤ F) :
    UFBound (ufUnion F p a b) (k + 1) ∧
    (∀ x, pIter (ufUnion F p a b) (k + 1) x =
      if pIter p k x = pIter p k a then pIter p k b else pIter p k x) := by
  have hfa : ufFind p F a = pIter p k a := ufFind_eq k a F (hk a) hkF
  have hfb : ufFind p F b = pIter p k b := ufFind_eq k b F (hk b) hkF
  simp only [ufUnion]
  rw [hfa, hfb]
  by_cases hab : pIter p k a = pIter p k b
  · rw [if_pos hab]
    refine ⟨UFBound_mono hk (Nat.le_succ k), ?_⟩
    intro x
    have hpx := pIter_fix_persist (hk x) (k + 1) (Nat.le_succ k)
    rw [hpx]
    by_cases hx : pIter p k x = pIter p k a
    · rw [if_pos hx, hx, hab]
    · rw [if_neg hx]
  · rw [if_neg hab]
    have hupd : ∀ z, z ≠ pIter p k a →
        Function.update p (pIter p k a) (pIter p k b) z = p z :=
      fun z hz => Function.update_noteq hz _ _
    have hpb_ne : pIter p k b ≠ pIter p k a := fun h => hab h.symm
    have hfix_b : Function.update p (pIter p k a) (pIter p k b) (pIter p k b) =
        pIter p k b := by
      rw [hupd _ hpb_ne]
      exact hk b
    have main : ∀ x,
        pIter (Function.update p (pIter p k a) (pIter p k b)) (k + 1) x =
          (if pIter p k x = pIter p k a then pIter p k b else pIter p k x) ∧
        Function.update p (pIter p k a) (pIter p k b)
            (pIter (Function.update p (pIter p k a) (pIter p k b)) (k + 1) x) =
          pIter (Function.update p (pIter p k a) (pIter p k b)) (k + 1) x := by
      intro x
      by_cases hx : pIter p k x = pIter p k a
      · have hex : ∃ i, pIter p i x = pIter p k a := ⟨k, hx⟩
        have hi0 : Nat.find hex ≤ k := Nat.find_min' hex hx
        have hshift : pIter (Function.update p (pIter p k a) (pIter p k b))
            (Nat.find hex) x = pIter p (Nat.find hex) x :=
          pIter_congr_avoid hupd (Nat.find hex) x
            (fun i hi => Nat.find_min hex hi)
        have hhit : pIter (Function.update p (pIter p k a) (pIter p k b))
            (Nat.find hex) x = pIter p k a :=
          hshift.trans (Nat.find_spec hex)
        have hstep : pIter (Function.update p (pIter p k a) (pIter p k b))
            (Nat.find hex + 1) x = pIter p k b := by
          rw [pIter_succ_right, hhit]
          exact Function.update_same _ _ _
        have hfixpt : Function.update p (pIter p k a) (pIter p k b)
            (pIter (Function.update p (pIter p k a) (pIter p k b))
              (Nat.find hex + 1) x) =
            pIter (Function.update p (pIter p k a) (pIter p k b))
              (Nat.find hex + 1) x := by
          rw [hstep]
          exact hfix_b
        have hpersist : pIter (Function.update p (pIter p k a) (pIter p k b))
            (k + 1) x =
            pIter (Function.update p (pIter p k a) (pIter p k b))
              (Nat.find hex + 1) x :=
          pIter_fix_persist hfixpt (k + 1) (Nat.succ_le_succ hi0)
        constructor
        · rw [if_pos hx, hpersist, hstep]
        · rw [hpersist]
          exact hfixpt
      · have hnever : ∀ i, i < k + 1 → pIter p i x ≠ pIter p k a := by
          intro i hi hcon
          have hik : i ≤ k := Nat.lt_succ_iff.mp hi
          have hfixi : p (pIter p i x) = pIter p i x := by
            rw [hcon]
            exact hk a
          have hper := pIter_fix_persist hfixi k hik
          exact hx (hper.trans hcon)
        have hshift : pIter (Function.update p (pIter p k a) (pIter p k b))
            (k + 1) x = pIter p (k + 1) x :=
          pIter_congr_avoid hupd (k + 1) x hnever
        have hsame : pIter p (k + 1) x = pIter p k x :=
          pIter_fix_persist (hk x) (k + 1) (Nat.le_succ k)
        constructor
        · rw [if_neg hx, hshift, hsame]
        · rw [hshift, hsame, hupd _ hx]
          exact hk x
    exact ⟨fun x => (main x).2, fun x => (main x).1⟩

theorem ufFold_correct (F : Nat) :
    ∀ (ops pre : List (String × String)) (p : String → String) (k : Nat),
      UFBound p k → k + ops.length ≤ F →
      (∀ x, Relation.EqvGen (relOf pre) x (pIter p k x)) →
      (∀ uv, uv ∈ pre → pIter p k uv.1 = pIter p k uv.2) →
      ∃ k', k' ≤ k + ops.length ∧
        UFBound (ops.foldl (fun p ab => ufUnion F p ab.1 ab.2) p) k' ∧
        (∀ x, Relation.EqvGen (relOf (pre ++ ops)) x
          (pIter (ops.foldl (fun p ab => ufUnion F p ab.1 ab.2) p) k' x)) ∧
        (∀ uv, uv ∈ pre ++ ops →
          pIter (ops.foldl (fun p ab => ufUnion F p ab.1 ab.2) p) k' uv.1 =
          pIter (ops.foldl (fun p ab => ufUnion F p ab.1 ab.2) p) k' uv.2) := by
  intro ops
  induction ops with
  | nil =>
    intro pre p k hk hF hE hC
    exact ⟨k, le_refl k, hk, by simpa using hE, by simpa using hC⟩
  | cons ab rest ih =>
    intro pre p k hk hF hE hC
    obtain ⟨a, b⟩ := ab
    simp only [List.foldl_cons, List.length_cons] at hF ⊢
    have hkF : k ≤ F := by omega
    obtain ⟨hk', htrans⟩ := ufUnion_inv F p k a b hk hkF
    have hmono : ∀ x y, Relation.EqvGen (relOf pre) x y →
        Relation.EqvGen (relOf (pre ++ [(a, b)])) x y := by
      intro x y h
      exact h.mono (fun u v huv => List.mem_append_left _ huv)
    have hE' : ∀ x, Relation.EqvGen (relOf (pre ++ [(a, b)])) x
        (pIter (ufUnion F p a b) (k + 1) x) := by
      intro x
      rw [htrans x]
      by_cases hx : pIter p k x = pIter p k a
      · rw [if_pos hx]
        have h1 : Relation.EqvGen (relOf (pre ++ [(a, b)])) x (pIter p k a) :=
          hx ▸ hmono _ _ (hE x)
        have h2 : Relation.EqvGen (relOf (pre ++ [(a, b)])) (pIter p k a) a :=
          Relation.EqvGen.symm _ _ (hmono _ _ (hE a))
        have h3 : Relation.EqvGen (relOf (pre ++ [(a, b)])) a b :=
          Relation.EqvGen.rel _ _
            (List.mem_append_right _ (List.mem_singleton.mpr rfl))
        have h4 : Relation.EqvGen (relOf (pre ++ [(a, b)])) b (pIter p k b) :=
          hmono _ _ (hE b)
        exact Relation.EqvGen.trans _ _ _
          (Relation.EqvGen.trans _ _ _ (Relation.EqvGen.trans _ _ _ h1 h2) h3) h4
      · rw [if_neg hx]
        exact hmono _ _ (hE x)
    have hC' : ∀ uv, uv ∈ pre ++ [(a, b)] →
        pIter (ufUnion F p a b) (k + 1) uv.1 =
        pIter (ufUnion F p a b) (k + 1) uv.2 := by
      intro uv huv
      rw [htrans uv.1, htrans uv.2]
      rcases List.mem_append.mp huv with h | h
      · rw [hC uv h]
      · rw [List.mem_singleton] at h
        subst h
        show (if pIter p k a = pIter p k a then _ else _) = _
        rw [if_pos rfl]
        by_cases hba : pIter p k b = pIter p k a
        · rw [if_pos hba, hba]
        · rw [if_neg hba]
    obtain ⟨k', hk'le, hbound, hEF, hCF⟩ :=
      ih (pre ++ [(a, b)]) (ufUnion F p a b) (k + 1) hk' (by omega) hE' hC'
    refine ⟨k', by omega, hbound, ?_, ?_⟩
    · intro x
      have h := hEF x
      rwa [List.append_assoc, List.singleton_append] at h
    · intro uv huv
      refine hCF uv ?_
      rw [List.append_assoc, List.singleton_append]
      exact huv

theorem rootOf_eq_iff (g : NetworkAnalyzer) (x y : String) :
    rootOf g x = rootOf g y ↔ Relation.EqvGen (relOf (unionOps g)) x y := by
  have hbase : UFBound id 0 := fun _ => rfl
  obtain ⟨k', hk'le, hbound, hE, hC⟩ :=
    ufFold_correct (clusterFuel g) (unionOps g) [] id 0 hbase
      (by unfold clusterFuel; omega)
      (fun z => Relation.EqvGen.refl z)
      (fun uv huv => absurd huv (List.not_mem_nil uv))
  have hfp : (unionOps g).foldl
      (fun p ab => ufUnion (clusterFuel g) p ab.1 ab.2) id = finalParent g := rfl
  rw [hfp] at hbound hE hC
  simp only [List.nil_append] at hE hC
  have hroot : ∀ z, rootOf g z = pIter (finalParent g) k' z := by
    intro z
    unfold rootOf
    refine ufFind_eq k' z (clusterFuel g) (hbound z) ?_
    unfold clusterFuel
    omega
  constructor
  · intro h
    have h1 := hE x
    have h2 := hE y
    rw [← hroot x, h, hroot y] at h1
    exact Relation.EqvGen.trans _ _ _ h1 (Relation.EqvGen.symm _ _ h2)
  · intro h
    induction h with
    | rel u v huv =>
      rw [hroot u, hroot v]
      exact hC (u, v) huv
    | refl u => rfl
    | symm u v _ ihuv => exact ihuv.symm
    | trans u v w _ _ ih1 ih2 => exact ih1.trans ih2

theorem unionOps_mem {g : NetworkAnalyzer} (hnd : (nodeIds g).Nodup)
    (a b : String) :
    (a, b) ∈ unionOps g ↔ a ∈ nodeIds g ∧ b ∈ connsOf g a ∧ b ∈ nodeIds g := by
  unfold unionOps
  rw [List.mem_flatMap]
  constructor
  · rintro ⟨sn, hsn, hmem⟩
    obtain ⟨c, hc, heq⟩ := List.mem_map.mp hmem
    have ha : sn.1 = a := congrArg Prod.fst heq
    have hb : c = b := congrArg Prod.snd heq
    subst ha
    subst hb
    have hfst : sn.1 ∈ nodeIds g := List.mem_map_of_mem (·.1) hsn
    obtain ⟨hcc, hkey⟩ := List.mem_filter.mp hc
    have hlk : lookupA g.scammerNodes sn.1 = some sn.2 :=
      lookupA_eq_of_mem_nodup hnd (by rwa [Prod.mk.eta])
    refine ⟨hfst, ?_, ?_⟩
    · rw [connsOf_eq_of_lookup hlk]
      exact hcc
    · exact (lookupA_isSome_iff _ _).mp (by simpa using hkey)
  · rintro ⟨ha, hconn, hb⟩
    obtain ⟨n, hlk⟩ := exists_lookup_of_mem_nodeIds ha
    refine ⟨(a, n), lookupA_eq_some_mem hlk, ?_⟩
    refine List.mem_map.mpr ⟨b, ?_, rfl⟩
    refine List.mem_filter.mpr ⟨?_, ?_⟩
    · rw [connsOf_eq_of_lookup hlk] at hconn
      exact hconn
    · simpa using (lookupA_isSome_iff _ _).mpr hb

theorem unionOps_iff_conn {g : NetworkAnalyzer} (hwf : NetWF g) (a b : String) :
    relOf (unionOps g) a b ↔ b ∈ connsOf g a := by
  obtain ⟨hnd, husers, -, hiff⟩ := hwf
  show (a, b) ∈ unionOps g ↔ _
  rw [unionOps_mem hnd a b]
  constructor
  · rintro ⟨-, h, -⟩
    exact h
  · intro h
    obtain ⟨hne, k, hu, hw⟩ := (hiff a b).mp h
    exact ⟨husers k a hu, h, husers k b hw⟩

theorem groupFold_lookup (root : String → String) :
    ∀ (ids : List String) (acc : List (String × List String)) (r : String),
      (lookupA (ids.foldl (fun acc sid => upsertA acc (root sid)
          (((lookupA acc (root sid)).getD []) ++ [sid])) acc) r).getD [] =
        (lookupA acc r).getD [] ++ ids.filter (fun x => root x = r) := by
  intro ids
  induction ids with
  | nil =>
    intro acc r
    simp
  | cons x ids ih =>
    intro acc r
    simp only [List.foldl_cons]
    rw [ih]
    simp only [List.filter_cons]
    by_cases h : root x = r
    · rw [h, lookupA_upsertA_self]
      rw [if_pos (by simp [h])]
      simp [List.append_assoc]
    · rw [lookupA_upsertA_ne _ _ _ _ h]
      rw [if_neg (by simp [h])]

theorem upsertA_keys_mem {α : Type} (l : List (String × α)) (k : String) (v : α)
    (r : String) :
    r ∈ (upsertA l k v).map (·.1) ↔ r ∈ l.map (·.1) ∨ r = k := by
  by_cases hk : k ∈ l.map (·.1)
  · rw [map_fst_upsertA_mem v hk]
    constructor
    · exact Or.inl
    · rintro (h | rfl)
      · exact h
      · exact hk
  · rw [map_fst_upsertA_not_mem v hk]
    rw [List.mem_append, List.mem_singleton]

theorem upsertA_keys_nodup {α : Type} (l : List (String × α)) (k : String)
    (v : α) (h : (l.map (·.1)).Nodup) : ((upsertA l k v).map (·.1)).Nodup := by
  by_cases hk : k ∈ l.map (·.1)
  · rw [map_fst_upsertA_mem v hk]
    exact h
  · rw [map_fst_upsertA_not_mem v hk]
    exact h.append (List.nodup_singleton k)
      (fun x hx hx' => hk (List.mem_singleton.mp hx' ▸ hx))

theorem groupFold_keys (root : String → String) :
    ∀ (ids : List String) (acc : List (String × List String)),
      ((acc.map (·.1)).Nodup →
        (((ids.foldl (fun acc sid => upsertA acc (root sid)
          (((lookupA acc (root sid)).getD []) ++ [sid])) acc).map (·.1)).Nodup)) ∧
      (∀ r, r ∈ ((ids.foldl (fun acc sid => upsertA acc (root sid)
          (((lookupA acc (root sid)).getD []) ++ [sid])) acc).map (·.1)) ↔
        r ∈ acc.map (·.1) ∨ ∃ x, x ∈ ids ∧ root x = r) := by
  intro ids
  induction ids with
  | nil =>
    intro acc
    refine ⟨fun h => h, ?_⟩
    intro r
    simp
  | cons x ids ih =>
    intro acc
    simp only [List.foldl_cons]
    obtain ⟨ihn, ihm⟩ := ih (upsertA acc (root x)
      (((lookupA acc (root x)).getD []) ++ [x]))
    constructor
    · intro h
      exact ihn (upsertA_keys_nodup _ _ _ h)
    · intro r
      rw [ihm r, upsertA_keys_mem]
      constructor
      · rintro ((h | rfl) | ⟨y, hy, hry⟩)
        · exact Or.inl h
        · exact Or.inr ⟨x, List.mem_cons_self _ _, rfl⟩
        · exact Or.inr ⟨y, List.mem_cons_of_mem _ hy, hry⟩
      · rintro (h | ⟨y, hy, hry⟩)
        · exact Or.inl (Or.inl h)
        · rcases List.mem_cons.mp hy with rfl | hy'
          · exact Or.inl (Or.inr hry.symm)
          · exact Or.inr ⟨y, hy', hry⟩

theorem groupFold_values (root : String → String) (ids : List String)
    (m : List String) :
    m ∈ (groupFold root ids).map (·.2) ↔
      ∃ r, (∃ x, x ∈ ids ∧ root x = r) ∧
        m = ids.filter (fun x => root x = r) := by
  obtain ⟨hndf, hmemf⟩ := groupFold_keys root ids []
  have hnd : (((groupFold root ids)).map (·.1)).Nodup := hndf (by simp)
  constructor
  · intro hm
    obtain ⟨p, hp, rfl⟩ := List.mem_map.mp hm
    have hlk : lookupA (groupFold root ids) p.1 = some p.2 :=
      lookupA_eq_of_mem_nodup hnd (by rwa [Prod.mk.eta])
    have hval : (lookupA (groupFold root ids) p.1).getD [] =
        (lookupA ([] : List (String × List String)) p.1).getD [] ++
          ids.filter (fun x => root x = p.1) :=
      groupFold_lookup root ids [] p.1
    rw [hlk] at hval
    simp only [Option.getD_some] at hval
    have hkey : p.1 ∈ (groupFold root ids).map (·.1) :=
      List.mem_map_of_mem (·.1) hp
    rcases (hmemf p.1).mp hkey with h | h
    · simp at h
    · exact ⟨p.1, h, by simpa using hval⟩
  · rintro ⟨r, hex, rfl⟩
    have hkey : r ∈ (groupFold root ids).map (·.1) :=
      (hmemf r).mpr (Or.inr hex)
    obtain ⟨p, hp, hpr⟩ := List.mem_map.mp hkey
    have hlk : lookupA (groupFold root ids) p.1 = some p.2 :=
      lookupA_eq_of_mem_nodup hnd (by rwa [Prod.mk.eta])
    have hval : (lookupA (groupFold root ids) p.1).getD [] =
        (lookupA ([] : List (String × List String)) p.1).getD [] ++
          ids.filter (fun x => root x = p.1) :=
      groupFold_lookup root ids [] p.1
    rw [hlk] at hval
    simp only [Option.getD_some] at hval
    refine List.mem_map.mpr ⟨p, hp, ?_⟩
    rw [hpr] at hval
    simpa using hval

theorem insertBySize_mem (x : List String) :
    ∀ (l : List (List String)) (m : List String),
      m ∈ insertBySize x l ↔ m = x ∨ m ∈ l := by
  intro l
  induction l with
  | nil =>
    intro m
    simp [insertBySize]
  | cons y t ih =>
    intro m
    unfold insertBySize
    split
    · simp only [List.mem_cons]
    · rw [List.mem_cons, ih m, List.mem_cons]
      tauto

theorem sortBySizeDesc_mem :
    ∀ (l : List (List String)) (m : List String),
      m ∈ sortBySizeDesc l ↔ m ∈ l := by
  intro l
  induction l with
  | nil =>
    intro m
    simp [sortBySizeDesc]
  | cons y t ih =>
    intro m
    show m ∈ insertBySize y (sortBySizeDesc t) ↔ _
    rw [insertBySize_mem, ih m, List.mem_cons]

theorem detect_clusters_mem (g : NetworkAnalyzer) (mcs : Nat) (m : List String) :
    m ∈ detect_clusters g mcs ↔
      (∃ r, (∃ x, x ∈ nodeIds g ∧ rootOf g x = r) ∧
        m = (nodeIds g).filter (fun x => rootOf g x = r)) ∧
      mcs ≤ m.length := by
  unfold detect_clusters
  rw [sortBySizeDesc_mem, List.mem_filter]
  rw [groupFold_values (rootOf g) (nodeIds g) m]
  constructor
  · rintro ⟨h, hlen⟩
    exact ⟨h, by simpa using hlen⟩
  · rintro ⟨h, hlen⟩
    exact ⟨h, by simpa using hlen⟩

theorem cluster_set_iff {g : NetworkAnalyzer} (hwf : NetWF g) (c : Finset String) :
    (∃ m, m ∈ detect_clusters g 2 ∧ m.toFinset = c) ↔
      ∃ x, x ∈ nodeIds g ∧
        (∀ y, y ∈ c ↔ y ∈ nodeIds g ∧
          Relation.EqvGen (relOf (unionOps g)) x y) ∧ 2 ≤ c.card := by
  have hnd := hwf.1
  constructor
  · rintro ⟨m, hm, rfl⟩
    obtain ⟨⟨r, ⟨x, hx, hrx⟩, rfl⟩, hlen⟩ := (detect_clusters_mem g 2 m).mp hm
    refine ⟨x, hx, ?_, ?_⟩
    · intro y
      rw [List.mem_toFinset, List.mem_filter]
      simp only [decide_eq_true_eq]
      constructor
      · rintro ⟨hy, hry⟩
        exact ⟨hy, (rootOf_eq_iff g x y).mp (by rw [hrx, hry])⟩
      · rintro ⟨hy, heqv⟩
        refine ⟨hy, ?_⟩
        have h := (rootOf_eq_iff g x y).mpr heqv
        rw [← h, hrx]
    · rw [List.toFinset_card_of_nodup (hnd.filter _)]
      exact hlen
  · rintro ⟨x, hx, hc, hcard⟩
    have hset : ((nodeIds g).filter
        (fun y => rootOf g y = rootOf g x)).toFinset = c := by
      ext y
      simp only [List.mem_toFinset, List.mem_filter, decide_eq_true_eq]
      rw [hc y]
      constructor
      · rintro ⟨hy, hr⟩
        exact ⟨hy, (rootOf_eq_iff g x y).mp hr.symm⟩
      · rintro ⟨hy, he⟩
        exact ⟨hy, ((rootOf_eq_iff g x y).mpr he).symm⟩
    refine ⟨(nodeIds g).filter (fun y => rootOf g y = rootOf g x), ?_, hset⟩
    rw [detect_clusters_mem]
    refine ⟨⟨rootOf g x, ⟨x, hx, rfl⟩, rfl⟩, ?_⟩
    have hcount := congrArg Finset.card hset
    rw [List.toFinset_card_of_nodup (hnd.filter _)] at hcount
    omega

theorem same_cluster_of_conn {g : NetworkAnalyzer} (hwf : NetWF g)
    {A B : String} (hA : A ∈ nodeIds g) (hB : B ∈ nodeIds g)
    (hconn : B ∈ connsOf g A) (hne : A ≠ B) :
    ∃ cl, cl ∈ detect_clusters g 2 ∧ A ∈ cl ∧ B ∈ cl := by
  have hroot : rootOf g A = rootOf g B :=
    (rootOf_eq_iff g A B).mpr
      (Relation.EqvGen.rel _ _ ((unionOps_iff_conn hwf A B).mpr hconn))
  have hAm : A ∈ (nodeIds g).filter (fun x => rootOf g x = rootOf g A) :=
    List.mem_filter.mpr ⟨hA, by simp⟩
  have hBm : B ∈ (nodeIds g).filter (fun x => rootOf g x = rootOf g A) :=
    List.mem_filter.mpr ⟨hB, by simp [hroot.symm]⟩
  refine ⟨(nodeIds g).filter (fun x => rootOf g x = rootOf g A), ?_, hAm, hBm⟩
  rw [detect_clusters_mem]
  refine ⟨⟨rootOf g A, ⟨A, hA, rfl⟩, rfl⟩, ?_⟩
  have hsub : ({A, B} : Finset String) ⊆
      ((nodeIds g).filter (fun x => rootOf g x = rootOf g A)).toFinset := by
    intro z hz
    rcases Finset.mem_insert.mp hz with rfl | hz'
    · exact List.mem_toFinset.mpr hAm
    · rw [Finset.mem_singleton] at hz'
      subst hz'
      exact List.mem_toFinset.mpr hBm
  have h2 := Finset.card_pair hne
  have h3 := Finset.card_le_card hsub
  have h4 := List.toFinset_card_le
    ((nodeIds g).filter (fun x => rootOf g x = rootOf g A))
  omega

theorem clusters_perm_invariant {regs regs' : List Registration}
    (hperm : regs.Perm regs') (c : Finset String) :
    (∃ m, m ∈ detect_clusters (buildGraph regs) 2 ∧ m.toFinset = c) ↔
    (∃ m, m ∈ detect_clusters (buildGraph regs') 2 ∧ m.toFinset = c) := by
  obtain ⟨hwf, hmem, husers⟩ := buildGraph_spec regs
  obtain ⟨hwf', hmem', husers'⟩ := buildGraph_spec regs'
  have hnodes : ∀ s, s ∈ nodeIds (buildGraph regs) ↔
      s ∈ nodeIds (buildGraph regs') := by
    intro s
    rw [hmem s, hmem' s]
    exact exists_congr fun r => and_congr_left fun _ => hperm.mem_iff
  have husers_iff : ∀ k u, u ∈ usersOf (buildGraph regs) k ↔
      u ∈ usersOf (buildGraph regs') k := by
    intro k u
    rw [husers k u, husers' k u]
    exact exists_congr fun r => and_congr_left fun _ => hperm.mem_iff
  have hconns : ∀ u w, w ∈ connsOf (buildGraph regs) u ↔
      w ∈ connsOf (buildGraph regs') u := by
    intro u w
    rw [hwf.2.2.2 u w, hwf'.2.2.2 u w]
    exact and_congr_right fun _ => exists_congr fun k =>
      and_congr (husers_iff k u) (husers_iff k w)
  have hrel : ∀ a b, relOf (unionOps (buildGraph regs)) a b ↔
      relOf (unionOps (buildGraph regs')) a b := by
    intro a b
    rw [unionOps_iff_conn hwf a b, unionOps_iff_conn hwf' a b]
    exact hconns a b
  have heqv : ∀ a b, Relation.EqvGen (relOf (unionOps (buildGraph regs))) a b ↔
      Relation.EqvGen (relOf (unionOps (buildGraph regs'))) a b := by
    intro a b
    exact ⟨fun h => h.mono (fun u v huv => (hrel u v).mp huv),
      fun h => h.mono (fun u v huv => (hrel u v).mpr huv)⟩
  rw [cluster_set_iff hwf c, cluster_set_iff hwf' c]
  refine exists_congr fun x => ?_
  constructor
  · rintro ⟨hx, hcy, hcard⟩
    exact ⟨(hnodes x).mp hx,
      fun y => (hcy y).trans (and_congr (hnodes y) (heqv x y)), hcard⟩
  · rintro ⟨hx, hcy, hcard⟩
    exact ⟨(hnodes x).mpr hx,
      fun y => (hcy y).trans (and_congr (hnodes y).symm (heqv x y).symm), hcard⟩

/-- Witness registration A: payment handle `X@upi ` (mixed case, trailing
space), normalizing to `x@upi`. -/
def c8regA : Registration :=
  { sid := "A", identifiers := [("upi_id", ["X@upi "])] }

/-- Witness registration B: payment handle `x@upi`. -/
def c8regB : Registration :=
  { sid := "B", identifiers := [("upi_id", ["x@upi"])] }

/-- Witness registration list. -/
def c8regs : List Registration := [c8regA, c8regB]

/-- C8: fix two registrations with distinct actor ids that share a normalized
identifier key (e.g. both register payment handle `x@upi`). In the identity
graph built from any registration list containing both,
`find_connected_scammers` started at the first actor (depth 2) reaches the
second, `detect_clusters` places both actors in one cluster, and the clusters
— taken as sets of member actors — are the same for every registration
order. -/
theorem identity_graph_shared_identifier (regs : List Registration)
    (rA rB : Registration) (hAr : rA ∈ regs) (hBr : rB ∈ regs)
    (hne : rA.sid ≠ rB.sid) (k : String)
    (hkA : k ∈ regKeys rA) (hkB : k ∈ regKeys rB) :
    rB.sid ∈ find_connected_scammers (buildGraph regs) rA.sid 2 ∧
    (∃ cl, cl ∈ detect_clusters (buildGraph regs) 2 ∧
      rA.sid ∈ cl ∧ rB.sid ∈ cl) ∧
    ∀ (regs' : List Registration), regs.Perm regs' →
      ∀ c : Finset String,
        (∃ m, m ∈ detect_clusters (buildGraph regs) 2 ∧ m.toFinset = c) ↔
        (∃ m, m ∈ detect_clusters (buildGraph regs') 2 ∧ m.toFinset = c) := by
  obtain ⟨hwf, hmem, husers⟩ := buildGraph_spec regs
  have hA : rA.sid ∈ nodeIds (buildGraph regs) := (hmem _).mpr ⟨rA, hAr, rfl⟩
  have hB : rB.sid ∈ nodeIds (buildGraph regs) := (hmem _).mpr ⟨rB, hBr, rfl⟩
  have huA : rA.sid ∈ usersOf (buildGraph regs) k :=
    (husers k _).mpr ⟨rA, hAr, rfl, hkA⟩
  have huB : rB.sid ∈ usersOf (buildGraph regs) k :=
    (husers k _).mpr ⟨rB, hBr, rfl, hkB⟩
  have hconn : rB.sid ∈ connsOf (buildGraph regs) rA.sid :=
    (hwf.2.2.2 _ _).mpr ⟨hne, k, huA, huB⟩
  have hconn_sub : ∀ u w, w ∈ connsOf (buildGraph regs) u →
      w ∈ nodeIds (buildGraph regs) := by
    intro u w h
    obtain ⟨-, k', -, hw⟩ := (hwf.2.2.2 u w).mp h
    exact hwf.2.1 k' w hw
  refine ⟨?_, ?_, ?_⟩
  · exact find_connected_adjacent hconn_sub hwf.2.2.1 hA hconn
      (fun h => hne h.symm) (by norm_num)
  · exact same_cluster_of_conn hwf hA hB hconn hne
  · intro regs' hperm c
    exact clusters_perm_invariant hperm c

/-- C8 witness: on the two-registration list `c8regs` the hypotheses hold
concretely (both actors carry the shared normalized key `upi_id:x@upi`), so B
is reachable from A and both land in one cluster. -/
theorem identity_graph_shared_identifier_witness :
    ("upi_id:x@upi" ∈ regKeys c8regA ∧ "upi_id:x@upi" ∈ regKeys c8regB ∧
      c8regA.sid ≠ c8regB.sid) ∧
    c8regB.sid ∈ find_connected_scammers (buildGraph c8regs) c8regA.sid 2 ∧
    ∃ cl, cl ∈ detect_clusters (buildGraph c8regs) 2 ∧
      c8regA.sid ∈ cl ∧ c8regB.sid ∈ cl := by
  have h := identity_graph_shared_identifier c8regs c8regA c8regB
    (List.mem_cons_self _ _)
    (List.mem_cons_of_mem _ (List.mem_cons_self _ _))
    (by decide) "upi_id:x@upi" (by decide) (by decide)
  exact ⟨⟨by decide, by decide, by decide⟩, h.1, h.2.1⟩
